import Mathlib

/-!
Verification of the project/version aggregate layer of a mod-hosting backend
(Rust sources under `src/`): database builders and readers for versions
(`database/models/version_item.rs`), the version routes
(`routes/versions.rs`), project routes (`routes/projects.rs`), project
creation (`routes/project_creation.rs`) and team routes (`routes/teams.rs`).

The relational store is modelled as explicit record states; SQL statements
become list operations (INSERT = append, UPDATE = map, SELECT ... LIMIT 1 =
`List.find?`).  64-bit row ids are modelled as `Nat`, timestamps as `Int`,
and byte-string hash values as `String` (the source stores the ascii bytes
of the hex digest and compares them with `as_bytes`, which coincides with
string equality).  Fallible route handlers return `Except`.
-/

namespace Fabricate

/-! ## Embedding of `database/models/version_item.rs` (the version store) -/

namespace VersionItem

/-- A row of the `versions` table, mirroring `struct Version` of
`version_item.rs`. -/
structure VersionRow where
  id : Nat
  mod_id : Nat
  name : String
  version_number : String
  changelog_url : Option String
  date_published : Int
  downloads : Int
  release_channel : Nat
deriving DecidableEq, Repr

/-- A row of the `files` table (`INSERT INTO files (id, version_id, url,
filename)`). -/
structure FileRow where
  id : Nat
  version_id : Nat
  url : String
  filename : String
deriving DecidableEq, Repr

/-- A row of the `hashes` table (`INSERT INTO hashes (file_id, algorithm,
hash)`). -/
structure HashRow where
  file_id : Nat
  algorithm : String
  hash : String
deriving DecidableEq, Repr

/-- A row of the `dependencies` table as inserted by
`VersionBuilder::insert` (`dependent_id`, `dependency_id`). -/
structure DepRow where
  dependent_id : Nat
  dependency_id : Nat
deriving DecidableEq, Repr

/-- A row of the `loaders_versions` join table. -/
structure LoaderVersionRow where
  loader_id : Nat
  version_id : Nat
deriving DecidableEq, Repr

/-- A row of the `game_versions_versions` join table. -/
structure GameVersionVersionRow where
  game_version_id : Nat
  joining_version_id : Nat
deriving DecidableEq, Repr

/-- The slice of the relational store touched by `version_item.rs`.  The
lookup tables `release_channels`, `game_versions` and `loaders` map row id
to display string.  `next_id` is the id-generator state backing
`generate_file_id` (§4.1: draw an unused id). -/
structure Db where
  versions : List VersionRow
  files : List FileRow
  hashes : List HashRow
  dependencies : List DepRow
  loaders_versions : List LoaderVersionRow
  game_versions_versions : List GameVersionVersionRow
  release_channels : List (Nat × String)
  game_versions : List (Nat × String)
  loaders : List (Nat × String)
  next_id : Nat
deriving DecidableEq, Repr

/-- `generate_file_id`: draws a fresh file id (modelled as a counter
supply; the source draws random ids and re-draws on collision, which is
observationally a fresh-id supply). -/
def generateFileId (db : Db) : Nat × Db :=
  (db.next_id, { db with next_id := db.next_id + 1 })

/-- `struct HashBuilder` of `version_item.rs`. -/
structure HashBuilder where
  algorithm : String
  hash : String
deriving DecidableEq, Repr

/-- `struct VersionFileBuilder` of `version_item.rs`. -/
structure VersionFileBuilder where
  url : String
  filename : String
  hashes : List HashBuilder
deriving DecidableEq, Repr

/-- The state effect of awaiting the future returned by
`VersionFileBuilder::insert`: generate a file id, insert the `files` row,
then insert one `hashes` row per hash. -/
def VersionFileBuilder.insert (b : VersionFileBuilder) (version_id : Nat)
    (db : Db) : Nat × Db :=
  let p := generateFileId db
  let file_id := p.1
  let db := { p.2 with
    files := p.2.files ++ [⟨file_id, version_id, b.url, b.filename⟩] }
  let db := b.hashes.foldl
    (fun db h => { db with hashes := db.hashes ++ [⟨file_id, h.algorithm, h.hash⟩] })
    db
  (file_id, db)

/-- `struct VersionBuilder` of `version_item.rs`. -/
structure VersionBuilder where
  version_id : Nat
  mod_id : Nat
  name : String
  version_number : String
  changelog_url : Option String
  files : List VersionFileBuilder
  dependencies : List Nat
  game_versions : List Nat
  loaders : List Nat
  release_channel : Nat
deriving DecidableEq, Repr

/-- `Version::insert`: `INSERT INTO versions (...)`. -/
def VersionRow.insert (v : VersionRow) (db : Db) : Db :=
  { db with versions := db.versions ++ [v] }

/-- The `versions` row built at the top of `VersionBuilder::insert`
(`date_published: chrono::Utc::now()` becomes the explicit `now`
argument; `downloads` starts at 0). -/
def VersionBuilder.versionRow (b : VersionBuilder) (now : Int) : VersionRow :=
  { id := b.version_id
    mod_id := b.mod_id
    name := b.name
    version_number := b.version_number
    changelog_url := b.changelog_url
    date_published := now
    downloads := 0
    release_channel := b.release_channel }

/-- One iteration of the dependency-insert loop of
`VersionBuilder::insert`. -/
def insertDependencyRow (version_id : Nat) (db : Db) (dep : Nat) : Db :=
  { db with dependencies := db.dependencies ++ [⟨version_id, dep⟩] }

/-- One iteration of the loader-insert loop of `VersionBuilder::insert`. -/
def insertLoaderRow (version_id : Nat) (db : Db) (loader : Nat) : Db :=
  { db with loaders_versions := db.loaders_versions ++ [⟨loader, version_id⟩] }

/-- One iteration of the game-version-insert loop of
`VersionBuilder::insert`. -/
def insertGameVersionRow (version_id : Nat) (db : Db) (gv : Nat) : Db :=
  { db with game_versions_versions := db.game_versions_versions ++ [⟨gv, version_id⟩] }

/-- `VersionBuilder::insert`.  The source iterates
`for file in self.files { file.insert(self.version_id, transaction); }`:
the future returned by `VersionFileBuilder::insert` is constructed but
never awaited, so the loop has no effect on the database state, and the
embedding accordingly applies no file or hash insert.  The dependency,
loader and game-version loops are awaited and do execute. -/
def VersionBuilder.insert (b : VersionBuilder) (now : Int) (db : Db) :
    Nat × Db :=
  let db := (b.versionRow now).insert db
  let db := b.dependencies.foldl (insertDependencyRow b.version_id) db
  let db := b.loaders.foldl (insertLoaderRow b.version_id) db
  let db := b.game_versions.foldl (insertGameVersionRow b.version_id) db
  (b.version_id, db)

/-- `struct QueryFile` of `version_item.rs` (`hashes` is a map from
algorithm to hash value). -/
structure QueryFile where
  id : Nat
  url : String
  filename : String
  hashes : List (String × String)
deriving DecidableEq, Repr

/-- `struct QueryVersion` of `version_item.rs`. -/
structure QueryVersion where
  id : Nat
  mod_id : Nat
  name : String
  version_number : String
  changelog_url : Option String
  date_published : Int
  downloads : Int
  release_channel : String
  files : List QueryFile
  game_versions : List String
  loaders : List String
deriving DecidableEq, Repr

/-- `Version::get_full`: the scalar row joined with `release_channels`,
then one query each for game versions, loaders and files, then one query
per file for its hashes.  Mirroring the source, the fetched `files` list
(with its hashes) is bound but the returned `QueryVersion` is constructed
with a fresh empty vector `files: Vec::new()`. -/
def getFull (id : Nat) (db : Db) : Option QueryVersion :=
  match db.versions.find? (fun v => v.id == id) with
  | none => none
  | some row =>
    match db.release_channels.find? (fun rc => rc.1 == row.release_channel) with
    | none => none
    | some rc =>
      let game_versions : List String :=
        (db.game_versions_versions.filter (fun gvv => gvv.joining_version_id == id)).filterMap
          (fun gvv => (db.game_versions.find? (fun gv => gv.1 == gvv.game_version_id)).map
            (fun gv => gv.2))
      let loaders : List String :=
        (db.loaders_versions.filter (fun lv => lv.version_id == id)).filterMap
          (fun lv => (db.loaders.find? (fun l => l.1 == lv.loader_id)).map (fun l => l.2))
      let fetched_files : List QueryFile :=
        (db.files.filter (fun f => f.version_id == id)).map (fun f =>
          { id := f.id
            url := f.url
            filename := f.filename
            hashes := (db.hashes.filter (fun h => h.file_id == f.id)).map
              (fun h => (h.algorithm, h.hash)) })
      some { id := id
             mod_id := row.mod_id
             name := row.name
             version_number := row.version_number
             changelog_url := row.changelog_url
             date_published := row.date_published
             downloads := row.downloads
             release_channel := rc.2
             files := []
             game_versions := game_versions
             loaders := loaders }

end VersionItem

/-! ## Concrete example states used by witnesses -/

namespace VersionItem

/-- A store with one version (id 1, channel 7) that owns one file (id 10)
with one hash row: the single-version reader does fetch rows here. -/
def exDb : Db :=
  { versions := [⟨1, 2, "ver", "1.0.0", none, 100, 5, 7⟩]
    files := [⟨10, 1, "u", "f.jar", ⟩]
    hashes := [⟨10, "sha1", "abc123"⟩]
    dependencies := []
    loaders_versions := [⟨3, 1⟩]
    game_versions_versions := [⟨4, 1⟩]
    release_channels := [(7, "release")]
    game_versions := [(4, "1.16.5")]
    loaders := [(3, "fabric")]
    next_id := 11 }

/-- A builder with one declared file, used to witness the insert claim. -/
def exBuilder : VersionBuilder :=
  { version_id := 21
    mod_id := 2
    name := "v"
    version_number := "2.0"
    changelog_url := none
    files := [⟨"u2", "g.jar", [⟨"sha1", "beef"⟩]⟩]
    dependencies := [1]
    game_versions := [4]
    loaders := [3]
    release_channel := 7 }

end VersionItem

/-! ## Permission model and team routes (`routes/teams.rs`) -/

namespace Teams

/-- Modelled from the spec: `models/teams.rs` is not under `src/`.  §4.6
describes a fixed-width bitset of named capabilities; the bit positions
follow the spec's capability list and agree with the raw bits used
literally in `remove_team_member` ((1 << 5) to remove accepted members,
(1 << 4) = MANAGE_INVITES to revoke invites).  A `Permissions` value is
the `u64` bit pattern. -/
abbrev Permissions := Nat

/-- `Permissions::UPLOAD_VERSION`. -/
def UPLOAD_VERSION : Permissions := (1 : Nat) <<< 0
/-- `Permissions::DELETE_VERSION`. -/
def DELETE_VERSION : Permissions := (1 : Nat) <<< 1
/-- `Permissions::EDIT_DETAILS`. -/
def EDIT_DETAILS : Permissions := (1 : Nat) <<< 2
/-- `Permissions::EDIT_BODY`. -/
def EDIT_BODY : Permissions := (1 : Nat) <<< 3
/-- `Permissions::MANAGE_INVITES`. -/
def MANAGE_INVITES : Permissions := (1 : Nat) <<< 4
/-- `Permissions::REMOVE_MEMBER`. -/
def REMOVE_MEMBER : Permissions := (1 : Nat) <<< 5
/-- `Permissions::EDIT_MEMBER`. -/
def EDIT_MEMBER : Permissions := (1 : Nat) <<< 6
/-- `Permissions::DELETE_PROJECT`. -/
def DELETE_PROJECT : Permissions := (1 : Nat) <<< 7
/-- `Permissions::ALL`: every named bit. -/
def ALL : Permissions := (255 : Nat)

/-- Modelled from the spec: bitflags `contains` — the receiver holds every
bit of the argument (`(self.bits & other.bits) == other.bits`). -/
def contains (p q : Permissions) : Bool :=
  Nat.land p q == q

/-- Modelled from the spec: bitflags `from_bits` — `some` exactly when no
unknown bit is set. -/
def fromBits (b : Nat) : Option Permissions :=
  if Nat.land b ALL == b then some b else none

/-- Modelled from the spec: user roles (`models/users.rs` is not under
`src/`).  Moderator and Admin both grant the moderator override. -/
inductive Role where
  | developer
  | moderator
  | admin
deriving DecidableEq, Repr

/-- `Role::is_mod`. -/
def Role.is_mod : Role → Bool
  | .moderator => true
  | .admin => true
  | .developer => false

/-- Modelled from the spec: the caller identity produced by the auth
collaborator (`resolve_caller` §6): user id plus role. -/
structure User where
  id : Nat
  role : Role
deriving DecidableEq, Repr

/-- `crate::models::teams::OWNER_ROLE`, the literal privileged role
name. -/
def OWNER_ROLE : String := "Owner"

/-- Modelled from the spec: a `team_members` row
(`database/models/team_item.rs` is not under `src/`), per §3. -/
structure MemberRow where
  id : Nat
  team_id : Nat
  user_id : Nat
  name : String
  role : String
  permissions : Nat
  accepted : Bool
deriving DecidableEq, Repr

/-- The slice of the store used by the team routes; `next_id` backs
`generate_team_member_id`. -/
structure TeamsDb where
  members : List MemberRow
  next_id : Nat
deriving DecidableEq, Repr

/-- Modelled from the spec: `TeamMember::get_from_user_id` — find the
member row of the given team and user. -/
def getFromUserId (team_id user_id : Nat) (db : TeamsDb) : Option MemberRow :=
  db.members.find? (fun m => m.team_id == team_id && m.user_id == user_id)

/-- Modelled from the spec: `TeamMember::edit_team_member` — update the
(team, user) row, setting whichever of permissions, role, accepted are
given. -/
def editMemberRow (team_id user_id : Nat) (perms : Option Nat)
    (role : Option String) (accepted : Option Bool) (db : TeamsDb) : TeamsDb :=
  { db with members := db.members.map (fun m =>
      if m.team_id == team_id && m.user_id == user_id then
        { m with
          permissions := perms.getD m.permissions
          role := role.getD m.role
          accepted := accepted.getD m.accepted }
      else m) }

/-- Modelled from the spec: `TeamMember::delete` — delete the (team, user)
row. -/
def deleteMemberRow (team_id user_id : Nat) (db : TeamsDb) : TeamsDb :=
  { db with members := db.members.filter (fun m =>
      !(m.team_id == team_id && m.user_id == user_id)) }

/-- The error type of the route layer (`routes::ApiError`; its defining
module is not under `src/`, constructors follow the uses in the routes
and the spec's error taxonomy §7). -/
inductive ApiError where
  | databaseError
  | authenticationError
  | customAuthenticationError (msg : String)
  | invalidInputError (msg : String)
deriving DecidableEq, Repr

/-- The JSON body of `add_team_member`
(`crate::models::teams::TeamMember`). -/
structure NewMember where
  user_id : Nat
  name : String
  role : String
  permissions : Nat
deriving DecidableEq, Repr

/-- `add_team_member` of `routes/teams.rs`: the caller must be a member of
the team whose stored bitset is valid, hold MANAGE_INVITES, not be
assigning the Owner role, and hold every permission granted; the new
member is inserted with `accepted = false`. -/
def addTeamMember (current_user : User) (team_id : Nat) (new_member : NewMember)
    (db : TeamsDb) : Except ApiError TeamsDb :=
  match getFromUserId team_id current_user.id db with
  | none => .error .authenticationError
  | some member =>
    match fromBits member.permissions with
    | none => .error (.invalidInputError "Specified permissions bitflag is invalid!")
    | some permissions =>
      if contains permissions MANAGE_INVITES && new_member.role != OWNER_ROLE then
        if !contains permissions new_member.permissions then
          .error .authenticationError
        else
          .ok { members := db.members ++
                  [⟨db.next_id, team_id, new_member.user_id, new_member.name,
                    new_member.role, new_member.permissions, false⟩]
                next_id := db.next_id + 1 }
      else .error .authenticationError

/-- The JSON body of `edit_team_member` (`struct EditTeamMember`). -/
structure EditTeamMember where
  permissions : Option Nat
  role : Option String
deriving DecidableEq, Repr

/-- `edit_team_member` of `routes/teams.rs`: the caller must be a member
whose stored bitset is valid and hold EDIT_MEMBER; the request must not
assign the literal role "Owner"; if permissions are granted the caller
must hold every granted bit.  Note the Owner check is on the requested new
role only — the target's current role is never consulted. -/
def editTeamMember (current_user : User) (team_id user_id : Nat)
    (edit_member : EditTeamMember) (db : TeamsDb) : Except ApiError TeamsDb :=
  match getFromUserId team_id current_user.id db with
  | none => .error .authenticationError
  | some member =>
    match fromBits member.permissions with
    | none => .error (.invalidInputError "Specified permissions bitflag is invalid!")
    | some permissions =>
      if contains permissions EDIT_MEMBER && edit_member.role != some OWNER_ROLE then
        match edit_member.permissions with
        | some new_permissions =>
          if !contains permissions new_permissions then
            .error .authenticationError
          else
            .ok (editMemberRow team_id user_id edit_member.permissions
                  edit_member.role none db)
        | none =>
          .ok (editMemberRow team_id user_id edit_member.permissions
                edit_member.role none db)
      else .error .authenticationError

/-- `remove_team_member` of `routes/teams.rs`: the caller must be a member
of the team; a missing target is NotFound (`ok none`); an accepted target
requires caller bit (1 << 5), an unaccepted one bit (1 << 4).  No check of
the target's role is made. -/
def removeTeamMember (current_user : User) (team_id user_id : Nat)
    (db : TeamsDb) : Except ApiError (Option TeamsDb) :=
  match getFromUserId team_id current_user.id db with
  | none => .error .authenticationError
  | some member =>
    match getFromUserId team_id user_id db with
    | none => .ok none
    | some delete_member =>
      if delete_member.accepted then
        if Nat.land member.permissions ((1 : Nat) <<< 5) != 0 then
          .ok (some (deleteMemberRow team_id user_id db))
        else .error .authenticationError
      else
        if Nat.land member.permissions ((1 : Nat) <<< 4) != 0 then
          .ok (some (deleteMemberRow team_id user_id db))
        else .error .authenticationError

/-- A team (id 1) whose Owner is user 1 and whose second member, user 2,
holds the full valid bitset but is not the Owner. -/
def exTeamsDb : TeamsDb :=
  { members :=
      [⟨100, 1, 1, "alice", "Owner", ALL, true⟩,
       ⟨101, 1, 2, "bob", "Member", ALL, true⟩]
    next_id := 102 }

/-- A team (id 1) whose only member, user 3, holds just UPLOAD_VERSION (a
valid bitset lacking MANAGE_INVITES). -/
def exTeamsDbWeak : TeamsDb :=
  { members := [⟨100, 1, 3, "carol", "Member", UPLOAD_VERSION, true⟩]
    next_id := 101 }

end Teams

/-! ## Route-level data model shared by `routes/versions.rs` and
`routes/projects.rs` -/

namespace Routes

open Teams (Permissions User Role ApiError MemberRow contains)

/-- A row of the `versions` table in the shape used by the routes
(`id, mod_id, author_id, name, version_number, changelog, changelog_url,
date_published, downloads, release_channel, featured`; the reader module
supplying this shape is not under `src/`, the columns are those read and
updated by `routes/versions.rs`). -/
structure VRow where
  id : Nat
  mod_id : Nat
  author_id : Nat
  name : String
  version_number : String
  changelog : String
  changelog_url : Option String
  date_published : Int
  downloads : Int
  release_channel : Nat
  featured : Bool
deriving DecidableEq, Repr

/-- A row of the `files` table (`id, version_id, url, filename,
is_primary`). -/
structure FRow where
  id : Nat
  version_id : Nat
  url : String
  filename : String
  is_primary : Bool
deriving DecidableEq, Repr

/-- A row of the `hashes` table. -/
structure HRow where
  file_id : Nat
  algorithm : String
  hash : String
deriving DecidableEq, Repr

/-- A row of the `dependencies` table
(`dependent_id, dependency_id, dependency_type`). -/
structure DRow where
  dependent_id : Nat
  dependency_id : Nat
  dependency_type : String
deriving DecidableEq, Repr

/-- A row of the `mods` table: the columns read and updated by
`routes/projects.rs` (`project_item.rs` is not under `src/`; the fields
follow the UPDATE statements of `project_edit` and the spec §3). -/
structure ModRow where
  id : Nat
  team_id : Nat
  title : String
  description : String
  body : String
  status : Nat
  issues_url : Option String
  source_url : Option String
  wiki_url : Option String
  license_url : Option String
  discord_url : Option String
  slug : Option String
  client_side : Nat
  server_side : Nat
  license : Nat
  icon_url : Option String
  downloads : Nat
  follows : Nat
deriving DecidableEq, Repr

/-- The slice of the relational store used by the project and version
routes, together with the two search-index side-effect logs: `
index_deletes` records synchronous index document deletes and
`index_queue` records enqueued index upserts (project ids, §6). -/
structure Db where
  mods : List ModRow
  versions : List VRow
  files : List FRow
  hashes : List HRow
  dependencies : List DRow
  loaders_versions : List (Nat × Nat)
  game_versions_versions : List (Nat × Nat)
  members : List MemberRow
  mods_categories : List (Nat × Nat)
  mods_donations : List (Nat × Nat × String)
  release_channels : List (Nat × String)
  loaders : List (Nat × String)
  game_versions : List (Nat × String)
  statuses : List (Nat × String)
  side_types : List (Nat × String)
  licenses : List (Nat × String)
  donation_platforms : List (Nat × String)
  categories : List (Nat × String)
  project_types : List (Nat × String)
  index_deletes : List Nat
  index_queue : List Nat
  next_id : Nat
deriving DecidableEq, Repr

/-- `models::projects::VersionType` (release channel of a version). -/
inductive VersionType where
  | release
  | beta
  | alpha
deriving DecidableEq, Repr

/-- `VersionType::as_str`. -/
def VersionType.as_str : VersionType → String
  | .release => "release"
  | .beta => "beta"
  | .alpha => "alpha"

/-- `models::projects::Dependency` (target version id plus dependency
type string). -/
structure Dependency where
  version_id : Nat
  dependency_type : String
deriving DecidableEq, Repr

/-- The denormalized version view consumed by `routes/versions.rs`
(`QueryVersion` of the reader; the module is not under `src/`, fields are
those used by `convert_version` and `version_list`). -/
structure RQueryVersion where
  id : Nat
  project_id : Nat
  author_id : Nat
  featured : Bool
  name : String
  version_number : String
  changelog : String
  changelog_url : Option String
  date_published : Int
  downloads : Int
  release_channel : String
  files : List (String × String × List (String × String) × Bool)
  dependencies : List (Nat × String)
  game_versions : List String
  loaders : List String
deriving DecidableEq, Repr

/-- `models::projects::VersionFile` (url, filename, hashes, primary). -/
structure MVersionFile where
  url : String
  filename : String
  hashes : List (String × String)
  primary : Bool
deriving DecidableEq, Repr

/-- `models::projects::Version`, the response body built by
`convert_version`. -/
structure MVersion where
  id : Nat
  project_id : Nat
  author_id : Nat
  featured : Bool
  name : String
  version_number : String
  changelog : String
  changelog_url : Option String
  date_published : Int
  downloads : Int
  version_type : VersionType
  files : List MVersionFile
  dependencies : List Dependency
  game_versions : List String
  loaders : List String
deriving DecidableEq, Repr

/-- `convert_version` of `routes/versions.rs`: repackage the reader view
as the response model; the release-channel string is parsed into
`VersionType` with `Release` as the fallback.  (Hash values are modelled
as strings throughout, so the source's `String::from_utf8` step on the
stored ascii bytes is the identity here.) -/
def convertVersion (data : RQueryVersion) : MVersion :=
  { id := data.id
    project_id := data.project_id
    author_id := data.author_id
    featured := data.featured
    name := data.name
    version_number := data.version_number
    changelog := data.changelog
    changelog_url := data.changelog_url
    date_published := data.date_published
    downloads := data.downloads
    version_type :=
      if data.release_channel == "release" then .release
      else if data.release_channel == "beta" then .beta
      else if data.release_channel == "alpha" then .alpha
      else .release
    files := data.files.map (fun f => ⟨f.1, f.2.1, f.2.2.1, f.2.2.2⟩)
    dependencies := data.dependencies.map (fun d => ⟨d.1, d.2⟩)
    game_versions := data.game_versions
    loaders := data.loaders }

/-- The comparator of `versions.sort_by(|a, b|
b.date_published.cmp(&a.date_published))` as a total preorder: `a`
precedes `b` when `b`'s publish date is at most `a`'s (descending). -/
def dateDescV (a b : RQueryVersion) : Prop :=
  b.date_published ≤ a.date_published

instance : DecidableRel dateDescV := fun a b => Int.decLe _ _

instance : IsTotal RQueryVersion dateDescV :=
  ⟨fun a b => le_total b.date_published a.date_published⟩

instance : IsTrans RQueryVersion dateDescV :=
  ⟨fun _ _ _ hab hbc => le_trans hbc hab⟩

/-- The same descending-date comparator on converted versions. -/
def dateDescM (a b : MVersion) : Prop :=
  b.date_published ≤ a.date_published

instance : DecidableRel dateDescM := fun a b => Int.decLe _ _

instance : IsTotal MVersion dateDescM :=
  ⟨fun a b => le_total b.date_published a.date_published⟩

instance : IsTrans MVersion dateDescM :=
  ⟨fun _ _ _ hab hbc => le_trans hbc hab⟩

/-- Rust's `Vec::sort_by` is a stable sort; `List.insertionSort` with a
total preorder is extensionally the same function. -/
def sortVersions (l : List RQueryVersion) : List RQueryVersion :=
  l.insertionSort dateDescV

/-- Stable descending-date sort of response entries
(`response.sort_by(|a, b| b.date_published.cmp(&a.date_published))`). -/
def sortMVersions (l : List MVersion) : List MVersion :=
  l.insertionSort dateDescM

/-- The recursion of `Vec::dedup_by`: drop an element equal (under `eq`)
to the last retained one. -/
def dedupByGo (eq : α → α → Bool) (prev : α) : List α → List α
  | [] => []
  | b :: bs => if eq b prev then dedupByGo eq prev bs else b :: dedupByGo eq b bs

/-- `Vec::dedup_by`: remove all but the first of consecutive elements
related by `eq`. -/
def dedupBy (eq : α → α → Bool) : List α → List α
  | [] => []
  | a :: as => a :: dedupByGo eq a as

/-- The `joined_filters` list of `version_list`: every (game-version,
loader) pair, game versions outermost. -/
def joinedFilters (gameVersions loaders : List String) : List (String × String) :=
  (gameVersions.map (fun gv => loaders.map (fun l => (gv, l)))).flatten

/-- One step of the auto-featuring pass of `version_list`: find the first
(date-descending) version supporting the pair and push its conversion. -/
def autoFeaturedFold (versions : List RQueryVersion) (response : List MVersion)
    (filter : String × String) : List MVersion :=
  match versions.find? (fun v =>
      v.game_versions.contains filter.1 && v.loaders.contains filter.2) with
  | some v => response ++ [convertVersion v]
  | none => response

/-- The body of `version_list` (`routes/versions.rs` lines 50–98) over
its fetched data: `versions0` is the project's version list as returned
by the (batched) reader, `featuredFilter` the `featured` query parameter,
`loadersTable` the names from `Loader::list` and `gameVersionsTable` the
names from `GameVersion::list_filter(None, Some(true), ..)`.  First the
explicit featured filter, then — when that is empty, versions exist and
`featured=true` was asked — the auto-featured pass over all (game-version,
loader) pairs, then the all-versions fallback; finally a stable
descending-date sort followed by `dedup_by` on equal ids. -/
def versionList (versions0 : List RQueryVersion) (featuredFilter : Option Bool)
    (loadersTable gameVersionsTable : List String) : List MVersion :=
  let response := (versions0.filter (fun v =>
    match featuredFilter with
    | some f => f == v.featured
    | none => true)).map convertVersion
  let versions := sortVersions versions0
  let response :=
    if response.isEmpty && !versions.isEmpty && featuredFilter.getD false then
      let response := (joinedFilters gameVersionsTable loadersTable).foldl
        (autoFeaturedFold versions) response
      if response.isEmpty then response ++ versions.map convertVersion
      else response
    else response
  dedupBy (fun a b => a.id == b.id) (sortMVersions response)

/-- Modelled from the spec: `TeamMember::get_from_user_id` against the
route store (find the team_members row of the team and user). -/
def getMember (team_id user_id : Nat) (db : Db) : Option MemberRow :=
  db.members.find? (fun m => m.team_id == team_id && m.user_id == user_id)

/-- Modelled from the spec: `TeamMember::get_from_user_id_version` —
resolve the version's project, the project's team, then the member row. -/
def getMemberVersion (version_id user_id : Nat) (db : Db) : Option MemberRow :=
  (db.versions.find? (fun v => v.id == version_id)).bind (fun v =>
    (db.mods.find? (fun m => m.id == v.mod_id)).bind (fun m =>
      getMember m.team_id user_id db))

/-- Modelled from the spec: the single-version reader used by the routes
(§4.2 — scalar row joined with the channel name, plus the nested
collections, assembled in memory). -/
def getFullVersion (id : Nat) (db : Db) : Option RQueryVersion :=
  (db.versions.find? (fun v => v.id == id)).bind (fun row =>
    (db.release_channels.find? (fun rc => rc.1 == row.release_channel)).map (fun rc =>
      { id := row.id
        project_id := row.mod_id
        author_id := row.author_id
        featured := row.featured
        name := row.name
        version_number := row.version_number
        changelog := row.changelog
        changelog_url := row.changelog_url
        date_published := row.date_published
        downloads := row.downloads
        release_channel := rc.2
        files := (db.files.filter (fun f => f.version_id == id)).map (fun f =>
          (f.url, f.filename,
            (db.hashes.filter (fun h => h.file_id == f.id)).map
              (fun h => (h.algorithm, h.hash)),
            f.is_primary))
        dependencies := (db.dependencies.filter (fun d => d.dependent_id == id)).map
          (fun d => (d.dependency_id, d.dependency_type))
        game_versions := (db.game_versions_versions.filter (fun g => g.2 == id)).filterMap
          (fun g => (db.game_versions.find? (fun t => t.1 == g.1)).map (fun t => t.2))
        loaders := (db.loaders_versions.filter (fun l => l.2 == id)).filterMap
          (fun l => (db.loaders.find? (fun t => t.1 == l.1)).map (fun t => t.2)) }))

/-- Apply `f` to the `versions` row with the given id (`UPDATE versions
... WHERE id = $n`). -/
def updateVersionRow (id : Nat) (f : VRow → VRow) (db : Db) : Db :=
  { db with versions := db.versions.map (fun v => if v.id == id then f v else v) }

/-- The JSON body of `version_edit` (`struct EditVersion`). -/
structure EditVersion where
  name : Option String
  version_number : Option String
  changelog : Option String
  version_type : Option VersionType
  dependencies : Option (List Dependency)
  game_versions : Option (List String)
  loaders : Option (List String)
  featured : Option Bool
  primary_file : Option (String × String)
deriving DecidableEq, Repr

/-- The `name` branch of `version_edit`. -/
def editName (id : Nat) (req : EditVersion) (db : Db) : Except ApiError Db :=
  match req.name with
  | none => .ok db
  | some name =>
    if name.length > 256 || name.length < 3 then
      .error (.invalidInputError "The version name must be within 3-256 characters!")
    else .ok (updateVersionRow id (fun v => { v with name := name }) db)

/-- The `version_number` branch of `version_edit`. -/
def editNumber (id : Nat) (req : EditVersion) (db : Db) : Except ApiError Db :=
  match req.version_number with
  | none => .ok db
  | some number =>
    if number.length > 64 || number.isEmpty then
      .error (.invalidInputError "The version number must be within 1-64 characters!")
    else .ok (updateVersionRow id (fun v => { v with version_number := number }) db)

/-- The `version_type` branch of `version_edit`
(`ChannelId::get_id` is a name lookup in `release_channels`). -/
def editVersionType (id : Nat) (req : EditVersion) (db : Db) : Except ApiError Db :=
  match req.version_type with
  | none => .ok db
  | some version_type =>
    match db.release_channels.find? (fun rc => rc.2 == version_type.as_str) with
    | none => .error (.invalidInputError "No database entry for version type provided.")
    | some channel =>
      .ok (updateVersionRow id (fun v => { v with release_channel := channel.1 }) db)

/-- The `dependencies` branch of `version_edit`: delete all dependency
rows of the version, then insert the requested ones. -/
def editDependencies (id : Nat) (req : EditVersion) (db : Db) : Except ApiError Db :=
  match req.dependencies with
  | none => .ok db
  | some dependencies =>
    let db := { db with dependencies :=
      db.dependencies.filter (fun d => !(d.dependent_id == id)) }
    .ok { db with dependencies := db.dependencies ++
      dependencies.map (fun d => ⟨id, d.version_id, d.dependency_type⟩) }

/-- The `game_versions` branch of `version_edit`: delete the join rows of
the version, then insert one per requested name, rejecting unknown
names. -/
def editGameVersions (id : Nat) (req : EditVersion) (db : Db) : Except ApiError Db :=
  match req.game_versions with
  | none => .ok db
  | some game_versions =>
    game_versions.foldlM (fun db gv =>
      match db.game_versions.find? (fun t => t.2 == gv) with
      | none => .error (.invalidInputError "No database entry for game version provided.")
      | some t => .ok { db with game_versions_versions :=
          db.game_versions_versions ++ [(t.1, id)] })
      { db with game_versions_versions :=
        db.game_versions_versions.filter (fun g => !(g.2 == id)) }

/-- The `loaders` branch of `version_edit`. -/
def editLoaders (id : Nat) (req : EditVersion) (db : Db) : Except ApiError Db :=
  match req.loaders with
  | none => .ok db
  | some loaders =>
    loaders.foldlM (fun db loader =>
      match db.loaders.find? (fun t => t.2 == loader) with
      | none => .error (.invalidInputError "No database entry for loader provided.")
      | some t => .ok { db with loaders_versions :=
          db.loaders_versions ++ [(t.1, id)] })
      { db with loaders_versions :=
        db.loaders_versions.filter (fun l => !(l.2 == id)) }

/-- The `featured` branch of `version_edit`. -/
def editFeatured (id : Nat) (req : EditVersion) (db : Db) : Except ApiError Db :=
  match req.featured with
  | none => .ok db
  | some featured =>
    .ok (updateVersionRow id (fun v => { v with featured := featured }) db)

/-- The hash-resolution query of the `primary_file` branch (`SELECT f.id
FROM hashes h INNER JOIN files f ON h.file_id = f.id WHERE h.algorithm =
$2 AND h.hash = $1`, first row): the first hash row with that algorithm
and value whose file exists.  The source runs it on the pooled
connection; no earlier branch of the edit touches `files` or `hashes`, so
the transaction state seen here agrees with the pool state. -/
def resolveHash (algorithm hash : String) (db : Db) : Option HRow :=
  db.hashes.find? (fun h =>
    h.algorithm == algorithm && h.hash == hash &&
      db.files.any (fun f => f.id == h.file_id))

/-- The `primary_file` branch of `version_edit`: resolve the (algorithm,
hash) pair — failure is a hard input error — then clear `is_primary` on
every file of the version and set it on the resolved file, in that
order. -/
def editPrimaryFile (id : Nat) (req : EditVersion) (db : Db) : Except ApiError Db :=
  match req.primary_file with
  | none => .ok db
  | some primary_file =>
    match resolveHash primary_file.1 primary_file.2 db with
    | none => .error (.invalidInputError
        ("Specified file with hash " ++ primary_file.2 ++ " does not exist."))
    | some h =>
      let db := { db with files := db.files.map (fun f : FRow =>
        if f.version_id == id then { f with is_primary := false } else f) }
      .ok { db with files := db.files.map (fun f : FRow =>
        if f.id == h.file_id then { f with is_primary := true } else f) }

/-- The `changelog` branch of `version_edit`. -/
def editChangelog (id : Nat) (req : EditVersion) (db : Db) : Except ApiError Db :=
  match req.changelog with
  | none => .ok db
  | some body =>
    if body.length > 65536 then
      .error (.invalidInputError
        "The version changelog must be less than 65536 characters long!")
    else .ok (updateVersionRow id (fun v => { v with changelog := body }) db)

/-- `version_edit` of `routes/versions.rs`: fetch the version (missing →
NotFound, modelled as `ok none`), resolve the caller's permissions (team
member bitset, else the full bitset for moderators), require
UPLOAD_VERSION, then apply the field branches in source order inside one
transaction; any error rolls back (the pre-state stays). -/
def versionEdit (user : User) (version_id : Nat) (new_version : EditVersion)
    (db : Db) : Except ApiError (Option Db) :=
  match getFullVersion version_id db with
  | none => .ok none
  | some version_item =>
    let team_member := getMemberVersion version_item.id user.id db
    let permissions : Option Permissions :=
      match team_member with
      | some member => some member.permissions
      | none => if user.role.is_mod then some Teams.ALL else none
    match permissions with
    | none => .error (.customAuthenticationError
        "You do not have permission to edit this version!")
    | some perms =>
      if !contains perms Teams.UPLOAD_VERSION then
        .error (.customAuthenticationError
          "You do not have the permissions to edit this version!")
      else do
        let db ← editName version_id new_version db
        let db ← editNumber version_id new_version db
        let db ← editVersionType version_id new_version db
        let db ← editDependencies version_id new_version db
        let db ← editGameVersions version_id new_version db
        let db ← editLoaders version_id new_version db
        let db ← editFeatured version_id new_version db
        let db ← editPrimaryFile version_id new_version db
        let db ← editChangelog version_id new_version db
        .ok (some db)

/-- Modelled from the spec: `Version::remove_full` (§4.5) — check
existence, then cascade the delete through files, hashes, dependency
edges and the join tables. -/
def removeFullVersion (id : Nat) (db : Db) : Option Db :=
  match db.versions.find? (fun v => v.id == id) with
  | none => none
  | some _ =>
    let fileIds := (db.files.filter (fun f => f.version_id == id)).map (fun f => f.id)
    some { db with
      versions := db.versions.filter (fun v => !(v.id == id))
      files := db.files.filter (fun f => !(f.version_id == id))
      hashes := db.hashes.filter (fun h => !(fileIds.contains h.file_id))
      dependencies := db.dependencies.filter (fun d =>
        !(d.dependent_id == id || d.dependency_id == id))
      loaders_versions := db.loaders_versions.filter (fun l => !(l.2 == id))
      game_versions_versions := db.game_versions_versions.filter (fun g => !(g.2 == id)) }

/-- `version_delete` of `routes/versions.rs`: a non-moderator caller must
be a member of the owning team (else an input error naming the missing
permission) holding DELETE_VERSION (else an authentication error); then
the version is removed, a missing version giving NotFound (`ok none`). -/
def versionDelete (user : User) (id : Nat) (db : Db) :
    Except ApiError (Option Db) := do
  if !user.role.is_mod then
    match getMemberVersion id user.id db with
    | none => throw (.invalidInputError
        "You do not have permission to delete versions in this team")
    | some team_member =>
      if !contains team_member.permissions Teams.DELETE_VERSION then
        throw (.customAuthenticationError
          "You do not have permission to delete versions in this team")
      else pure ()
  else pure ()
  match removeFullVersion id db with
  | some db' => pure (some db')
  | none => pure none

/-- Modelled from the spec: project statuses §3 ("searchable" and
"hidden" are derived predicates over status). -/
inductive ProjectStatus where
  | draft
  | processing
  | approved
  | rejected
  | unlisted
deriving DecidableEq, Repr

/-- The lookup-table name of a status. -/
def ProjectStatus.as_str : ProjectStatus → String
  | .draft => "draft"
  | .processing => "processing"
  | .approved => "approved"
  | .rejected => "rejected"
  | .unlisted => "unlisted"

/-- Modelled from the spec: only Approved projects are indexed. -/
def ProjectStatus.is_searchable : ProjectStatus → Bool
  | .approved => true
  | _ => false

/-- Modelled from the spec: draft, processing and rejected are hidden. -/
def ProjectStatus.is_hidden : ProjectStatus → Bool
  | .draft => true
  | .processing => true
  | .rejected => true
  | _ => false

/-- Modelled from the spec: parse a status table name (fallback:
processing, the default creation status). -/
def statusFromStr (s : String) : ProjectStatus :=
  if s == "draft" then .draft
  else if s == "approved" then .approved
  else if s == "rejected" then .rejected
  else if s == "unlisted" then .unlisted
  else .processing

/-- The project view used by `project_edit`: the scalar row plus the
decoded status (`QueryProject`; its reader is not under `src/`, modelled
from the spec §4.2). -/
structure QueryProject where
  inner : ModRow
  status : ProjectStatus
deriving DecidableEq, Repr

/-- Modelled from the spec: the single-project reader — the `mods` row
joined with its status name. -/
def getFullProject (id : Nat) (db : Db) : Option QueryProject :=
  (db.mods.find? (fun m => m.id == id)).bind (fun m =>
    (db.statuses.find? (fun s => s.1 == m.status)).map (fun s =>
      { inner := m, status := statusFromStr s.2 }))

/-- `models::projects::DonationLink` (platform short name, display name,
url). -/
structure DonationLink where
  id : String
  platform : String
  url : String
deriving DecidableEq, Repr

/-- The JSON body of `project_edit` (`struct EditProject` of
`routes/projects.rs`): the url-like fields and the slug are
double-optional — `none` means the field was absent from the request,
`some none` that it was present with JSON `null`. -/
structure EditProject where
  title : Option String
  description : Option String
  body : Option String
  status : Option ProjectStatus
  categories : Option (List String)
  issues_url : Option (Option String)
  source_url : Option (Option String)
  wiki_url : Option (Option String)
  license_url : Option (Option String)
  discord_url : Option (Option String)
  donation_urls : Option (List DonationLink)
  license_id : Option String
  client_side : Option String
  server_side : Option String
  slug : Option (Option String)
deriving DecidableEq, Repr

/-- Apply `f` to the `mods` row with the given id (`UPDATE mods ... WHERE
id = $n`). -/
def updateModRow (id : Nat) (f : ModRow → ModRow) (db : Db) : Db :=
  { db with mods := db.mods.map (fun m => if m.id == id then f m else m) }

/-- The `title` branch of `project_edit`. -/
def peTitle (perms : Permissions) (id : Nat) (req : EditProject) (db : Db) :
    Except ApiError Db :=
  match req.title with
  | none => .ok db
  | some title =>
    if !contains perms Teams.EDIT_DETAILS then
      .error (.customAuthenticationError
        "You do not have the permissions to edit the title of this project!")
    else if title.length > 256 || title.length < 3 then
      .error (.invalidInputError "The project's title must be within 3-256 characters!")
    else .ok (updateModRow id (fun m => { m with title := title }) db)

/-- The `description` branch of `project_edit`. -/
def peDescription (perms : Permissions) (id : Nat) (req : EditProject) (db : Db) :
    Except ApiError Db :=
  match req.description with
  | none => .ok db
  | some description =>
    if !contains perms Teams.EDIT_DETAILS then
      .error (.customAuthenticationError
        "You do not have the permissions to edit the description of this project!")
    else if description.length > 2048 || description.length < 3 then
      .error (.invalidInputError "The project's description must be within 3-256 characters!")
    else .ok (updateModRow id (fun m => { m with description := description }) db)

/-- The `status` branch of `project_edit`: permission check, moderator
gate for Approved/Rejected, status-id lookup, row update, then the
search-index side effect across the searchable boundary (synchronous
delete, queued add). -/
def peStatus (user : User) (perms : Permissions) (id : Nat)
    (project_item : QueryProject) (req : EditProject) (db : Db) :
    Except ApiError Db :=
  match req.status with
  | none => .ok db
  | some status =>
    if !contains perms Teams.EDIT_DETAILS then
      .error (.customAuthenticationError
        "You do not have the permissions to edit the status of this project!")
    else if (status == ProjectStatus.rejected || status == ProjectStatus.approved)
        && !user.role.is_mod then
      .error (.customAuthenticationError "You don't have permission to set this status")
    else
      match db.statuses.find? (fun s => s.2 == status.as_str) with
      | none => .error (.invalidInputError "No database entry for status provided.")
      | some status_id =>
        let db := updateModRow id (fun m => { m with status := status_id.1 }) db
        if project_item.status.is_searchable && !status.is_searchable then
          .ok { db with index_deletes := db.index_deletes ++ [id] }
        else if !project_item.status.is_searchable && status.is_searchable then
          .ok { db with index_queue := db.index_queue ++ [id] }
        else .ok db

/-- The `categories` branch of `project_edit`: cap at 3, delete all join
rows, insert one per name resolved through the lookup table. -/
def peCategories (perms : Permissions) (id : Nat) (req : EditProject) (db : Db) :
    Except ApiError Db :=
  match req.categories with
  | none => .ok db
  | some categories =>
    if !contains perms Teams.EDIT_DETAILS then
      .error (.customAuthenticationError
        "You do not have the permissions to edit the categories of this project!")
    else if categories.length > 3 then
      .error (.invalidInputError "The maximum number of categories for a project is four.")
    else
      categories.foldlM (fun db category =>
        match db.categories.find? (fun t => t.2 == category) with
        | none => .error (.invalidInputError ("Category " ++ category ++ " does not exist."))
        | some t => .ok { db with mods_categories := db.mods_categories ++ [(id, t.1)] })
        { db with mods_categories := db.mods_categories.filter (fun c => !(c.1 == id)) }

/-- The shared length bound of the url-like branches: a present url may
be at most 2048 characters. -/
def urlTooLong (u : Option String) : Bool :=
  match u with
  | some s => decide (s.length > 2048)
  | none => false

/-- The `issues_url` branch of `project_edit`: absent = no change,
present-with-null = clear to NULL, present-with-value = set (after the
length bound). -/
def peIssuesUrl (perms : Permissions) (id : Nat) (req : EditProject) (db : Db) :
    Except ApiError Db :=
  match req.issues_url with
  | none => .ok db
  | some issues_url =>
    if !contains perms Teams.EDIT_DETAILS then
      .error (.customAuthenticationError
        "You do not have the permissions to edit the issues URL of this project!")
    else if urlTooLong issues_url then
      .error (.invalidInputError "The project's issues url must be less than 2048 characters!")
    else .ok (updateModRow id (fun m => { m with issues_url := issues_url }) db)

/-- The `source_url` branch of `project_edit`. -/
def peSourceUrl (perms : Permissions) (id : Nat) (req : EditProject) (db : Db) :
    Except ApiError Db :=
  match req.source_url with
  | none => .ok db
  | some source_url =>
    if !contains perms Teams.EDIT_DETAILS then
      .error (.customAuthenticationError
        "You do not have the permissions to edit the source URL of this project!")
    else if urlTooLong source_url then
      .error (.invalidInputError "The project's source url must be less than 2048 characters!")
    else .ok (updateModRow id (fun m => { m with source_url := source_url }) db)

/-- The `wiki_url` branch of `project_edit`. -/
def peWikiUrl (perms : Permissions) (id : Nat) (req : EditProject) (db : Db) :
    Except ApiError Db :=
  match req.wiki_url with
  | none => .ok db
  | some wiki_url =>
    if !contains perms Teams.EDIT_DETAILS then
      .error (.customAuthenticationError
        "You do not have the permissions to edit the wiki URL of this project!")
    else if urlTooLong wiki_url then
      .error (.invalidInputError "The project's wiki url must be less than 2048 characters!")
    else .ok (updateModRow id (fun m => { m with wiki_url := wiki_url }) db)

/-- The `license_url` branch of `project_edit`. -/
def peLicenseUrl (perms : Permissions) (id : Nat) (req : EditProject) (db : Db) :
    Except ApiError Db :=
  match req.license_url with
  | none => .ok db
  | some license_url =>
    if !contains perms Teams.EDIT_DETAILS then
      .error (.customAuthenticationError
        "You do not have the permissions to edit the license URL of this project!")
    else if urlTooLong license_url then
      .error (.invalidInputError "The project's license url must be less than 2048 characters!")
    else .ok (updateModRow id (fun m => { m with license_url := license_url }) db)

/-- The `discord_url` branch of `project_edit`. -/
def peDiscordUrl (perms : Permissions) (id : Nat) (req : EditProject) (db : Db) :
    Except ApiError Db :=
  match req.discord_url with
  | none => .ok db
  | some discord_url =>
    if !contains perms Teams.EDIT_DETAILS then
      .error (.customAuthenticationError
        "You do not have the permissions to edit the discord URL of this project!")
    else if urlTooLong discord_url then
      .error (.invalidInputError "The project's discord url must be less than 2048 characters!")
    else .ok (updateModRow id (fun m => { m with discord_url := discord_url }) db)

/-- `String::to_lowercase` restricted to the slug alphabet (a
character-wise lowering, written over the character list so that it
evaluates). -/
def strToLower (s : String) : String :=
  String.mk (s.data.map Char.toLower)

/-- Modelled from the spec: the base-62 alphabet value of a character
(digits, then lowercase, then uppercase). -/
def base62Digit (c : Char) : Option Nat :=
  if c.isDigit then some (c.toNat - 48)
  else if c ≥ 'a' && c ≤ 'z' then some (c.toNat - 97 + 10)
  else if c ≥ 'A' && c ≤ 'Z' then some (c.toNat - 65 + 36)
  else none

/-- Modelled from the spec §4.1: decode a base-62 string to the numeric
id (none on an empty string, a character outside the alphabet, or u64
overflow) — this is what deserializing a slug as a `ProjectId` does. -/
def fromBase62 (s : String) : Option Nat :=
  if s.isEmpty then none
  else
    s.data.foldl (fun acc c => acc.bind (fun n =>
      (base62Digit c).bind (fun d =>
        let m := n * 62 + d
        if m < 2 ^ 64 then some m else none))) (some 0)

/-- The `slug` branch of `project_edit`: length bound, rejection when the
slug parses as an existing project's id, then `UPDATE mods SET slug =
LOWER($1)`. -/
def peSlug (perms : Permissions) (id : Nat) (req : EditProject) (db : Db) :
    Except ApiError Db :=
  match req.slug with
  | none => .ok db
  | some slug =>
    if !contains perms Teams.EDIT_DETAILS then
      .error (.customAuthenticationError
        "You do not have the permissions to edit the slug of this project!")
    else
      let updated : Except ApiError Db :=
        .ok (updateModRow id (fun m => { m with slug := slug.map strToLower }) db)
      match slug with
      | some s =>
        if s.length > 64 || s.length < 3 then
          .error (.invalidInputError "The project's slug must be within 3-64 characters!")
        else
          match fromBase62 s with
          | some slug_project_id =>
            if db.mods.any (fun m => m.id == slug_project_id) then
              .error (.invalidInputError "Slug collides with other project's id!")
            else updated
          | none => updated
      | none => updated

/-- The `client_side` branch of `project_edit` (the source unwraps the
side-type lookup with `.expect`, a task panic on a missing entry;
modelled as a database-error outcome). -/
def peClientSide (perms : Permissions) (id : Nat) (req : EditProject) (db : Db) :
    Except ApiError Db :=
  match req.client_side with
  | none => .ok db
  | some new_side =>
    if !contains perms Teams.EDIT_DETAILS then
      .error (.customAuthenticationError
        "You do not have the permissions to edit the side type of this mod!")
    else
      match db.side_types.find? (fun t => t.2 == new_side) with
      | none => .error .databaseError
      | some t => .ok (updateModRow id (fun m => { m with client_side := t.1 }) db)

/-- The `server_side` branch of `project_edit`. -/
def peServerSide (perms : Permissions) (id : Nat) (req : EditProject) (db : Db) :
    Except ApiError Db :=
  match req.server_side with
  | none => .ok db
  | some new_side =>
    if !contains perms Teams.EDIT_DETAILS then
      .error (.customAuthenticationError
        "You do not have the permissions to edit the side type of this project!")
    else
      match db.side_types.find? (fun t => t.2 == new_side) with
      | none => .error .databaseError
      | some t => .ok (updateModRow id (fun m => { m with server_side := t.1 }) db)

/-- The `license_id` branch of `project_edit` (lookup unwrapped with
`.expect` in the source, modelled as a database-error outcome). -/
def peLicense (perms : Permissions) (id : Nat) (req : EditProject) (db : Db) :
    Except ApiError Db :=
  match req.license_id with
  | none => .ok db
  | some license =>
    if !contains perms Teams.EDIT_DETAILS then
      .error (.customAuthenticationError
        "You do not have the permissions to edit the license of this project!")
    else
      match db.licenses.find? (fun t => t.2 == license) with
      | none => .error .databaseError
      | some t => .ok (updateModRow id (fun m => { m with license := t.1 }) db)

/-- The `donation_urls` branch of `project_edit`: delete all join rows,
insert one per link with the platform resolved through the lookup
table. -/
def peDonations (perms : Permissions) (id : Nat) (req : EditProject) (db : Db) :
    Except ApiError Db :=
  match req.donation_urls with
  | none => .ok db
  | some donations =>
    if !contains perms Teams.EDIT_DETAILS then
      .error (.customAuthenticationError
        "You do not have the permissions to edit the donation links of this project!")
    else
      donations.foldlM (fun db donation =>
        match db.donation_platforms.find? (fun t => t.2 == donation.id) with
        | none => .error (.invalidInputError
            ("Platform " ++ donation.id ++ " does not exist."))
        | some t => .ok { db with mods_donations :=
            db.mods_donations ++ [(id, t.1, donation.url)] })
        { db with mods_donations := db.mods_donations.filter (fun d => !(d.1 == id)) }

/-- The `body` branch of `project_edit` (gated by EDIT_BODY). -/
def peBody (perms : Permissions) (id : Nat) (req : EditProject) (db : Db) :
    Except ApiError Db :=
  match req.body with
  | none => .ok db
  | some body =>
    if !contains perms Teams.EDIT_BODY then
      .error (.customAuthenticationError
        "You do not have the permissions to edit the body of this project!")
    else if body.length > 65536 then
      .error (.invalidInputError "The project's body must be less than 65536 characters!")
    else .ok (updateModRow id (fun m => { m with body := body }) db)

/-- `project_edit` of `routes/projects.rs`: fetch the project (missing →
NotFound, `ok none`), resolve the caller's permissions for the owning
team (full bitset for moderators), then apply the field branches in
source order inside one transaction; any error rolls back. -/
def projectEdit (user : User) (project_id : Nat) (new_project : EditProject)
    (db : Db) : Except ApiError (Option Db) :=
  match getFullProject project_id db with
  | none => .ok none
  | some project_item =>
    let team_member := getMember project_item.inner.team_id user.id db
    let permissions : Option Permissions :=
      match team_member with
      | some member => some member.permissions
      | none => if user.role.is_mod then some Teams.ALL else none
    match permissions with
    | none => .error (.customAuthenticationError
        "You do not have permission to edit this project!")
    | some perms => do
      let db ← peTitle perms project_id new_project db
      let db ← peDescription perms project_id new_project db
      let db ← peStatus user perms project_id project_item new_project db
      let db ← peCategories perms project_id new_project db
      let db ← peIssuesUrl perms project_id new_project db
      let db ← peSourceUrl perms project_id new_project db
      let db ← peWikiUrl perms project_id new_project db
      let db ← peLicenseUrl perms project_id new_project db
      let db ← peDiscordUrl perms project_id new_project db
      let db ← peSlug perms project_id new_project db
      let db ← peClientSide perms project_id new_project db
      let db ← peServerSide perms project_id new_project db
      let db ← peLicense perms project_id new_project db
      let db ← peDonations perms project_id new_project db
      let db ← peBody perms project_id new_project db
      .ok (some db)

/-- The empty route store (base of the concrete witness states). -/
def emptyDb : Db :=
  { mods := [], versions := [], files := [], hashes := [], dependencies := []
    loaders_versions := [], game_versions_versions := [], members := []
    mods_categories := [], mods_donations := [], release_channels := []
    loaders := [], game_versions := [], statuses := [], side_types := []
    licenses := [], donation_platforms := [], categories := []
    project_types := [], index_deletes := [], index_queue := [], next_id := 0 }

/-- A store with project 1 (team 1) owning version 9, whose only team
member (user 3) holds just UPLOAD_VERSION. -/
def exDb8 : Db :=
  { emptyDb with
    mods := [{ id := 1, team_id := 1, title := "m", description := "d",
               body := "", status := 5, issues_url := none, source_url := none,
               wiki_url := none, license_url := none, discord_url := none,
               slug := some "abc", client_side := 1, server_side := 1,
               license := 1, icon_url := none, downloads := 0, follows := 0 }]
    versions := [{ id := 9, mod_id := 1, author_id := 3, name := "v",
                   version_number := "1.0", changelog := "",
                   changelog_url := none, date_published := 50, downloads := 0,
                   release_channel := 7, featured := false }]
    members := [⟨100, 1, 3, "carol", "Member", Teams.UPLOAD_VERSION, true⟩]
    release_channels := [(7, "release")] }

/-- `exDb8` extended with two files of version 9 — file 11 currently
primary, file 10 carrying the sha1 hash "abc123". -/
def exDb3 : Db :=
  { exDb8 with
    files := [⟨10, 9, "u", "f.jar", false⟩, ⟨11, 9, "u2", "g.jar", true⟩]
    hashes := [⟨10, "sha1", "abc123"⟩] }

/-- The edit request that only re-designates the primary file by its
sha1 hash. -/
def req3 : EditVersion :=
  { name := none, version_number := none, changelog := none,
    version_type := none, dependencies := none, game_versions := none,
    loaders := none, featured := none,
    primary_file := some ("sha1", "abc123") }

/-- The store after `req3` succeeds on `exDb3`: primary moved from file
11 to file 10. -/
def exDb3' : Db :=
  { exDb3 with
    files := [⟨10, 9, "u", "f.jar", true⟩, ⟨11, 9, "u2", "g.jar", false⟩] }

/-- A store with project 1 (status id 5, "approved") whose issues_url is
set; the editing caller will be an admin (moderator override). -/
def exDb7 : Db :=
  { exDb8 with
    mods := [{ id := 1, team_id := 1, title := "m", description := "d",
               body := "", status := 5, issues_url := some "https://bugs.example",
               source_url := none, wiki_url := none, license_url := none,
               discord_url := none, slug := some "abc", client_side := 1,
               server_side := 1, license := 1, icon_url := none,
               downloads := 0, follows := 0 }]
    statuses := [(5, "approved")] }

/-- The edit request that clears `issues_url` with an explicit JSON
null. -/
def req7 : EditProject :=
  { title := none, description := none, body := none, status := none,
    categories := none, issues_url := some none, source_url := none,
    wiki_url := none, license_url := none, discord_url := none,
    donation_urls := none, license_id := none, client_side := none,
    server_side := none, slug := none }

/-- `exDb7` after `req7` succeeds: the issues url cleared. -/
def exDb7c : Db :=
  { exDb7 with
    mods := [{ id := 1, team_id := 1, title := "m", description := "d",
               body := "", status := 5, issues_url := none,
               source_url := none, wiki_url := none, license_url := none,
               discord_url := none, slug := some "abc", client_side := 1,
               server_side := 1, license := 1, icon_url := none,
               downloads := 0, follows := 0 }] }

/-- An unfeatured version covering (g1,l1) and (g2,l1). -/
def exVC1 : RQueryVersion :=
  { id := 1, project_id := 7, author_id := 3, featured := false,
    name := "v", version_number := "1.0", changelog := "",
    changelog_url := none, date_published := 10, downloads := 0,
    release_channel := "release", files := [], dependencies := [],
    game_versions := ["g1", "g2"], loaders := ["l1"] }

/-- An unfeatured version covering (g1,l2), published at the same
instant as `exVC1`. -/
def exWC1 : RQueryVersion :=
  { exVC1 with
    id := 2, name := "w", game_versions := ["g1"], loaders := ["l2"] }

/-- A project's version rows with tied publish dates. -/
def exVsC1 : List RQueryVersion := [exVC1, exWC1]

end Routes

/-! ## Project creation (`routes/project_creation.rs`) -/

namespace Creation

open Teams (User Role)
open Routes (Db ModRow VRow FRow HRow Dependency VersionType DonationLink
  ProjectStatus fromBase62 strToLower)

/-- `enum CreateError` of `routes/project_creation.rs` (the constructors
exercised by this model). -/
inductive CreateError where
  | databaseError
  | invalidInput (msg : String)
  | invalidGameVersion (v : String)
  | invalidLoader (v : String)
  | invalidCategory (v : String)
  | invalidIconFormat (ext : String)
  | missingValue (msg : String)
  | slugCollision
  | validationError
deriving DecidableEq, Repr

/-- `struct UploadedFile` of `routes/project_creation.rs`: the record of
one blob-store upload made during this creation attempt. -/
structure UploadedFile where
  file_id : String
  file_name : String
deriving DecidableEq, Repr

/-- The blob store plus the per-attempt upload log (`uploaded_files`
starts empty in `project_create`). -/
structure CreateSide where
  blob : List String
  uploaded : List UploadedFile
deriving DecidableEq, Repr

/-- `undo_uploads`: delete every already-uploaded blob of this attempt
from the blob store. -/
def undoUploads (side : CreateSide) : CreateSide :=
  { side with blob := side.blob.filter (fun b =>
      !(side.uploaded.any (fun u => u.file_name == b))) }

/-- Modelled from the spec §4.1: the base-62 digit character (digits,
lowercase, uppercase). -/
def base62CharOf (d : Nat) : Char :=
  if d < 10 then Char.ofNat (48 + d)
  else if d < 36 then Char.ofNat (97 + (d - 10))
  else Char.ofNat (65 + (d - 36))

/-- Modelled from the spec §4.1: base-62 encoding of an id (the public
display form used in blob keys); fuelled structural recursion, the fuel
bounds the digit count. -/
def toBase62Go : Nat → Nat → List Char → List Char
  | 0, _, acc => acc
  | fuel + 1, n, acc =>
    if n = 0 then acc
    else toBase62Go fuel (n / 62) (base62CharOf (n % 62) :: acc)

/-- Modelled from the spec §4.1: base-62 encoding, `"0"` for zero. -/
def toBase62 (n : Nat) : String :=
  if n = 0 then "0" else String.mk (toBase62Go n n [])

/-- Modelled from the spec: `struct InitialVersionData` of
`routes/version_creation.rs` (not under `src/`); the fields are exactly
those read by `project_create_inner` and `create_initial_version`. -/
structure InitialVersionData where
  project_id : Option Nat
  file_parts : List String
  version_number : String
  version_title : String
  version_body : Option String
  dependencies : List Dependency
  game_versions : List String
  release_channel : VersionType
  loaders : List String
  featured : Bool
deriving DecidableEq, Repr

/-- `struct ProjectCreateData` of `routes/project_creation.rs`. -/
structure ProjectCreateData where
  title : String
  project_type : String
  slug : String
  description : String
  body : String
  client_side : String
  server_side : String
  initial_versions : List InitialVersionData
  categories : List String
  issues_url : Option String
  source_url : Option String
  wiki_url : Option String
  license_url : Option String
  discord_url : Option String
  donation_urls : Option (List DonationLink)
  is_draft : Option Bool
  license_id : String
deriving DecidableEq, Repr

/-- The URL-safe slug alphabet (`RE_URL_SAFE = ^[a-zA-Z0-9_-]*$`). -/
def urlSafe (s : String) : Bool :=
  s.data.all (fun c => c.isAlphanum || c == '_' || c == '-')

/-- An in-range check for the validator length bounds (`chars` based,
byte length in the source; they agree on the ascii inputs concerned). -/
def lenBetween (s : String) (lo hi : Nat) : Bool :=
  decide (lo ≤ s.length) && decide (s.length ≤ hi)

/-- `create_data.validate()`: the derive-validator constraints on
`ProjectCreateData` (string bounds, slug alphabet, list caps; the
`#[validate(url)]` well-formedness of the optional links is treated as
satisfied, only their length bound is kept). -/
def validateCreateData (d : ProjectCreateData) : Except CreateError Unit :=
  if lenBetween d.title 3 256 && lenBetween d.project_type 1 64 &&
      lenBetween d.slug 3 64 && urlSafe d.slug &&
      lenBetween d.description 3 2048 && decide (d.body.length ≤ 65536) &&
      decide (d.initial_versions.length ≤ 64) && decide (d.categories.length ≤ 3) &&
      (d.issues_url.getD "").length ≤ 2048 && (d.source_url.getD "").length ≤ 2048 &&
      (d.wiki_url.getD "").length ≤ 2048 && (d.license_url.getD "").length ≤ 2048 &&
      (d.discord_url.getD "").length ≤ 2048 then
    .ok ()
  else .error .validationError

/-- A file field of the multipart payload after the leading `data` field:
disposition name, file name and extension (`get_name_ext`), content
length and content hash (the content itself abstracted to its hash). -/
structure UploadField where
  name : String
  filename : String
  ext : String
  size : Nat
  hash : String
deriving DecidableEq, Repr

/-- A version file builder of the creation path (the newer
`VersionFileBuilder`, module not under `src/`). -/
structure CFileBuilder where
  url : String
  filename : String
  hashes : List (String × String)
deriving DecidableEq, Repr

/-- A version builder of the creation path (the newer `VersionBuilder`,
module not under `src/`; fields as filled by `create_initial_version`). -/
structure CVersionBuilder where
  version_id : Nat
  project_id : Nat
  author_id : Nat
  name : String
  version_number : String
  changelog : String
  files : List CFileBuilder
  dependencies : List (Nat × String)
  game_versions : List Nat
  loaders : List Nat
  release_channel : Nat
  featured : Bool
deriving DecidableEq, Repr

/-- The `versions_map` construction of `project_create_inner`: map each
declared multipart field name to its version index, rejecting duplicate
names. -/
def buildVersionsMap (ivs : List InitialVersionData) :
    Except CreateError (List (String × Nat)) :=
  ivs.enum.foldlM (fun vmap p =>
    p.2.file_parts.foldlM (fun (vmap : List (String × Nat)) name =>
      if vmap.any (fun q => q.1 == name) then
        .error (.invalidInput "Duplicate multipart field name")
      else .ok (vmap ++ [(name, p.1)])) vmap) []

/-- `ChannelId::get_id` with the creation path's `.expect` (a panic on a
missing channel, modelled as a database-error outcome). -/
def channelGetId (db : Db) (name : String) : Except CreateError Nat :=
  match db.release_channels.find? (fun rc => rc.2 == name) with
  | none => .error .databaseError
  | some rc => .ok rc.1

/-- The game-version name resolution loop of `create_initial_version`. -/
def resolveGameVersions (db : Db) (names : List String) :
    Except CreateError (List Nat) :=
  names.foldlM (fun acc v =>
    match db.game_versions.find? (fun t => t.2 == v) with
    | none => .error (.invalidGameVersion v)
    | some t => .ok (acc ++ [t.1])) []

/-- The loader name resolution loop of `create_initial_version`. -/
def resolveLoaders (db : Db) (names : List String) :
    Except CreateError (List Nat) :=
  names.foldlM (fun acc l =>
    match db.loaders.find? (fun t => t.2 == l) with
    | none => .error (.invalidLoader l)
    | some t => .ok (acc ++ [t.1])) []

/-- `create_initial_version`: reject an embedded project id, generate the
version id, resolve the channel (an `.expect` panic on a missing channel,
modelled as a database error) and the game-version and loader names, and
build the version builder with an empty files list. -/
def createInitialVersion (version_data : InitialVersionData) (project_id : Nat)
    (author : Nat) (db : Db) : Except CreateError (CVersionBuilder × Db) :=
  if version_data.project_id.isSome then
    .error (.invalidInput "Found project id in initial version for new project")
  else do
  let version_id := db.next_id
  let db := { db with next_id := db.next_id + 1 }
  let release_channel ← channelGetId db version_data.release_channel.as_str
  let game_versions ← resolveGameVersions db version_data.game_versions
  let loaders ← resolveLoaders db version_data.loaders
  let dependencies := version_data.dependencies.map (fun d =>
    (d.version_id, d.dependency_type))
  pure ({ version_id := version_id
          project_id := project_id
          author_id := author
          name := version_data.version_title
          version_number := version_data.version_number
          changelog := version_data.version_body.getD ""
          files := []
          dependencies := dependencies
          game_versions := game_versions
          loaders := loaders
          release_channel := release_channel
          featured := version_data.featured }, db)

/-- `get_image_content_type` of `routes/project_creation.rs`. -/
def getImageContentType (extension : String) : Option String :=
  let content_type :=
    if extension == "bmp" then "image/bmp"
    else if extension == "gif" then "image/gif"
    else if extension == "jpeg" || extension == "jpg" || extension == "jpe" then "image/jpeg"
    else if extension == "png" then "image/png"
    else if extension == "svg" || extension == "svgz" then "image/svg+xml"
    else if extension == "webp" then "image/webp"
    else if extension == "rgb" then "image/x-rgb"
    else ""
  if !content_type.isEmpty then some content_type else none

/-- `process_icon_upload`: format gate, 256KiB bound, then the blob
upload under `data/{project_id}/icon.{ext}`, recorded in the upload
log. -/
def processIconUpload (project_id : Nat) (f : UploadField) (side : CreateSide) :
    Except CreateError String × CreateSide :=
  match getImageContentType f.ext with
  | none => (.error (.invalidIconFormat f.ext), side)
  | some _ =>
    if f.size ≥ 262144 then
      (.error (.invalidInput "Icons must be smaller than 256KiB"), side)
    else
      let path := "data/" ++ toBase62 project_id ++ "/icon." ++ f.ext
      (.ok path,
        { blob := side.blob ++ [path]
          uploaded := side.uploaded ++ [⟨path, path⟩] })

/-- Modelled from the spec: `upload_file` of `routes/version_creation.rs`
(not under `src/`) — upload the content under
`data/{project}/versions/{version_number}/{filename}` (§6), record the
upload, and return the file builder carrying the content hash. -/
def uploadFile (project_id : Nat) (version_number : String) (f : UploadField)
    (side : CreateSide) : CFileBuilder × CreateSide :=
  let path := "data/" ++ toBase62 project_id ++ "/versions/" ++ version_number
    ++ "/" ++ f.filename
  ({ url := path, filename := f.filename, hashes := [("sha1", f.hash)] },
    { blob := side.blob ++ [path]
      uploaded := side.uploaded ++ [⟨path, path⟩] })

/-- The multipart upload loop of `project_create_inner`: an `icon` field
goes through the icon path (at most one); any other field must be a
declared file part, and its upload is appended to the owning version
builder's files. -/
def processUploads (data : ProjectCreateData) (project_id : Nat)
    (vmap : List (String × Nat)) :
    List UploadField → Option String × List CVersionBuilder → CreateSide →
    Except CreateError (Option String × List CVersionBuilder) × CreateSide
  | [], acc, side => (.ok acc, side)
  | f :: rest, (icon_url, versions), side =>
    if f.name == "icon" then
      if icon_url.isSome then
        (.error (.invalidInput "Projects can only have one icon"), side)
      else
        match processIconUpload project_id f side with
        | (.error e, side') => (.error e, side')
        | (.ok url, side') =>
          processUploads data project_id vmap rest (some url, versions) side'
    else
      match vmap.find? (fun p => p.1 == f.name) with
      | none =>
        (.error (.invalidInput ("File " ++ f.filename ++ " (field " ++ f.name
          ++ ") isn't specified in the versions data")), side)
      | some p =>
        match versions.get? p.2, data.initial_versions.get? p.2 with
        | some created_version, some version_data =>
          let r := uploadFile project_id version_data.version_number f side
          processUploads data project_id vmap rest
            (icon_url, versions.set p.2
              { created_version with files := created_version.files ++ [r.1] }) r.2
        | _, _ => (.error .databaseError, side)

/-- The post-upload check of `project_create_inner`: every version must
have exactly as many files as it declared file parts. -/
def checkAllFilesUploaded (ivs : List InitialVersionData)
    (versions : List CVersionBuilder) : Except CreateError Unit :=
  (ivs.zip versions).forM (fun p =>
    if p.1.file_parts.length != p.2.files.length then
      .error (.invalidInput "Some files were specified in initial_versions but not uploaded")
    else .ok ())

/-- Modelled from the spec §3/§4.3: `ProjectBuilder::insert` (module not
under `src/`) — the transactional insert of the project row with its
category and donation join rows and its initial versions (version, file
and hash rows); the store's slug-uniqueness invariant (§3) rejects a
case-insensitive duplicate slug as a storage-constraint violation. -/
def projectBuilderInsert (project_id team_id : Nat) (data : ProjectCreateData)
    (icon_url : Option String) (status_id client_side_id server_side_id license_id : Nat)
    (category_ids : List Nat) (donations : List (Nat × String))
    (versions : List CVersionBuilder) (author : Nat) (now : Int) (db : Db) :
    Except CreateError Db :=
  if db.mods.any (fun m => (m.slug.map strToLower) == some (strToLower data.slug)) then
    .error .databaseError
  else do
  let db : Db := { db with mods := db.mods ++
    [{ id := project_id
       team_id := team_id
       title := data.title
       description := data.description
       body := data.body
       status := status_id
       issues_url := data.issues_url
       source_url := data.source_url
       wiki_url := data.wiki_url
       license_url := data.license_url
       discord_url := data.discord_url
       slug := some data.slug
       client_side := client_side_id
       server_side := server_side_id
       license := license_id
       icon_url := icon_url
       downloads := 0
       follows := 0 }] }
  let db : Db := { db with mods_categories :=
    db.mods_categories ++ category_ids.map (fun c => (project_id, c)) }
  let db : Db := { db with mods_donations :=
    db.mods_donations ++ donations.map (fun d => (project_id, d.1, d.2)) }
  let db ← versions.foldlM (fun (db : Db) b => do
    let db : Db := { db with versions := db.versions ++
      [{ id := b.version_id
         mod_id := b.project_id
         author_id := author
         name := b.name
         version_number := b.version_number
         changelog := b.changelog
         changelog_url := none
         date_published := now
         downloads := 0
         release_channel := b.release_channel
         featured := b.featured }] }
    let db ← b.files.foldlM (fun (db : Db) f => do
      let file_id := db.next_id
      let db : Db := { db with next_id := db.next_id + 1 }
      let db : Db := { db with files := db.files ++
        [{ id := file_id, version_id := b.version_id, url := f.url,
           filename := f.filename, is_primary := false }] }
      pure { db with hashes := db.hashes ++ f.hashes.map (fun h =>
        ⟨file_id, h.1, h.2⟩) }) db
    let db : Db := { db with dependencies :=
      db.dependencies ++ b.dependencies.map (fun d => ⟨b.version_id, d.1, d.2⟩) }
    let db : Db := { db with loaders_versions :=
      db.loaders_versions ++ b.loaders.map (fun l => (l, b.version_id)) }
    pure { db with game_versions_versions :=
      db.game_versions_versions ++ b.game_versions.map (fun g => (g, b.version_id)) }) db
  pure db

/-- The category resolution loop (`Category::get_id_project`; the
project-type scoping of the lookup table is immaterial here). -/
def resolveCategories (db : Db) (names : List String) :
    Except CreateError (List Nat) :=
  names.foldlM (fun acc category =>
    match db.categories.find? (fun t => t.2 == category) with
    | none => .error (.invalidCategory category)
    | some t => .ok (acc ++ [t.1])) []

/-- `StatusId::get_id` with the creation path's error message. -/
def statusGetId (db : Db) (status : ProjectStatus) : Except CreateError Nat :=
  match db.statuses.find? (fun t => t.2 == status.as_str) with
  | none => .error (.invalidInput ("Status " ++ status.as_str ++ " does not exist."))
  | some t => .ok t.1

/-- `SideTypeId::get_id` with the caller-specific error message. -/
def sideTypeGetId (db : Db) (side : String) (msg : String) :
    Except CreateError Nat :=
  match db.side_types.find? (fun t => t.2 == side) with
  | none => .error (.invalidInput msg)
  | some t => .ok t.1

/-- `License::get_id` with the creation path's error message. -/
def licenseGetId (db : Db) (license : String) : Except CreateError Nat :=
  match db.licenses.find? (fun t => t.2 == license) with
  | none => .error (.invalidInput "License specified does not exist.")
  | some t => .ok t.1

/-- The donation-platform resolution loop of `project_create_inner`. -/
def resolveDonations (db : Db) (urls : List DonationLink) :
    Except CreateError (List (Nat × String)) :=
  urls.foldlM (fun acc url =>
    match db.donation_platforms.find? (fun t => t.2 == url.id) with
    | none => .error (.invalidInput ("Donation platform " ++ url.id ++ " does not exist."))
    | some t => .ok (acc ++ [(t.1, url.url)])) []

/-- The relational tail of `project_create_inner` after the upload loop:
the files-uploaded check, category resolution, team insert (the caller as
sole Owner with the full bitset, accepted), status/side/license/donation
resolution, the builder insert, and the conditional index enqueue. -/
def finishCreation (user : User) (data : ProjectCreateData) (project_id : Nat)
    (project_type_id : Nat) (icon_url : Option String)
    (versions : List CVersionBuilder) (now : Int) (db : Db) :
    Except CreateError Db := do
  let _ ← checkAllFilesUploaded data.initial_versions versions
  let category_ids ← resolveCategories db data.categories
  let team_id := db.next_id
  let member_id := db.next_id + 1
  let db : Db := { db with
    next_id := db.next_id + 2
    members := db.members ++
      [{ id := member_id, team_id := team_id, user_id := user.id,
         name := "", role := Teams.OWNER_ROLE, permissions := Teams.ALL,
         accepted := true }] }
  let status : ProjectStatus :=
    if data.is_draft.getD false then .draft else .processing
  let status_id ← statusGetId db status
  let client_side_id ← sideTypeGetId db data.client_side
    "Client side type specified does not exist."
  let server_side_id ← sideTypeGetId db data.server_side
    "Server side type specified does not exist."
  let license_id ← licenseGetId db data.license_id
  let donations ← resolveDonations db (data.donation_urls.getD [])
  let db ← projectBuilderInsert project_id team_id data icon_url status_id
    client_side_id server_side_id license_id category_ids donations versions
    user.id now db
  if status.is_searchable then
    pure { db with index_queue := db.index_queue ++ [project_id] }
  else
    pure db

/-- The continuation of `project_create_inner` after the slug check
(split so the collision branch stays readable). -/
def projectCreateInner2 (user : User) (data : ProjectCreateData)
    (fields : List UploadField) (now : Int) (db : Db) (side : CreateSide)
    (project_id : Nat) : Except CreateError Db × CreateSide :=
  match buildVersionsMap data.initial_versions with
  | .error e => (.error e, side)
  | .ok vmap =>
    match data.initial_versions.foldlM (fun (p : List CVersionBuilder × Db) vd => do
        let r ← createInitialVersion vd project_id user.id p.2
        pure (p.1 ++ [r.1], r.2)) (([] : List CVersionBuilder), db) with
    | .error e => (.error e, side)
    | .ok (versions, db) =>
      match db.project_types.find? (fun t => t.2 == data.project_type) with
      | none => (.error (.invalidInput
          ("Project Type " ++ data.project_type ++ " does not exist.")), side)
      | some pt =>
        match processUploads data project_id vmap fields (none, versions) side with
        | (.error e, side') => (.error e, side')
        | (.ok (icon_url, versions), side') =>
          match finishCreation user data project_id pt.1 icon_url versions now db with
          | .error e => (.error e, side')
          | .ok db' => (.ok db', side')

/-- `project_create_inner`: the `data` field is already parsed (multipart
mechanics are the boundary collaborator); then validation, the
slug-parses-as-id collision check, the versions map and builders, the
project-type lookup, the upload loop, and the relational tail.  The
returned state pairs the transaction result with the blob-store /
upload-log state, which survives an error. -/
def projectCreateInner (user : User) (data : ProjectCreateData)
    (fields : List UploadField) (now : Int) (db : Db) (side : CreateSide) :
    Except CreateError Db × CreateSide :=
  let project_id := db.next_id
  let db : Db := { db with next_id := db.next_id + 1 }
  match validateCreateData data with
  | .error e => (.error e, side)
  | .ok () =>
    match fromBase62 data.slug with
    | some slug_project_id =>
      if db.mods.any (fun m => m.id == slug_project_id) then
        (.error .slugCollision, side)
      else
        projectCreateInner2 user data fields now db side project_id
    | none => projectCreateInner2 user data fields now db side project_id

/-- `project_create`: open a transaction and an empty upload log, run the
inner creation; on error, delete every uploaded blob (`undo_uploads`) and
roll the transaction back before surfacing the error; on success commit.
The returned store is the committed state on success, and the caller's
pre-state is kept on error. -/
def projectCreate (user : User) (data : ProjectCreateData)
    (fields : List UploadField) (now : Int) (db : Db) (blob : List String) :
    Except CreateError Db × CreateSide :=
  match projectCreateInner user data fields now db ⟨blob, []⟩ with
  | (.error e, side) => (.error e, undoUploads side)
  | (.ok db', side) => (.ok db', side)

/-- A concrete caller for the creation examples. -/
def exUserC : User := { id := 77, role := Role.developer }

/-- An initial version declaring one multipart file part. -/
def exIvC2 : InitialVersionData :=
  { project_id := none, file_parts := ["part-0"], version_number := "1.0.0",
    version_title := "First", version_body := none, dependencies := [],
    game_versions := [], release_channel := VersionType.release,
    loaders := [], featured := true }

/-- A creation payload declaring `exIvC2` as its only initial version. -/
def exDataC2 : ProjectCreateData :=
  { title := "Title", project_type := "mod", slug := "newproject",
    description := "desc", body := "", client_side := "required",
    server_side := "required", initial_versions := [exIvC2], categories := [],
    issues_url := none, source_url := none, wiki_url := none,
    license_url := none, discord_url := none, donation_urls := none,
    is_draft := none, license_id := "mit" }

/-- A creation payload whose slug `"100"` is the base-62 form of 3844. -/
def exDataC4 : ProjectCreateData :=
  { title := "Title", project_type := "mod", slug := "100",
    description := "desc", body := "", client_side := "required",
    server_side := "required", initial_versions := [], categories := [],
    issues_url := none, source_url := none, wiki_url := none,
    license_url := none, discord_url := none, donation_urls := none,
    is_draft := none, license_id := "mit" }

/-- An existing project whose numeric id 3844 is base-62 `"100"`. -/
def exModC4 : ModRow :=
  { id := 3844, team_id := 1, title := "m", description := "d", body := "",
    status := 5, issues_url := none, source_url := none, wiki_url := none,
    license_url := none, discord_url := none, slug := none, client_side := 6,
    server_side := 6, license := 7, icon_url := none, downloads := 0,
    follows := 0 }

/-- A store holding only the project with id 3844. -/
def exDbC4 : Db := { Routes.emptyDb with mods := [exModC4] }

/-- A creation payload reusing the existing slug `"abc"`. -/
def exDataC4c : ProjectCreateData := { exDataC4 with slug := "abc" }

/-- An existing project already holding the slug `"abc"`. -/
def exModC4c : ModRow := { exModC4 with id := 1, slug := some "abc" }

/-- A store with the slug-holder plus the lookup rows the creation tail
resolves, so the attempt reaches the builder insert. -/
def exDbC4c : Db :=
  { Routes.emptyDb with
    mods := [exModC4c], statuses := [(5, "processing")],
    side_types := [(6, "required")], licenses := [(7, "mit")],
    project_types := [(8, "mod")] }

end Creation

/-! ## Theorems -/

namespace VersionItem

theorem foldl_insertDependencyRow (v : Nat) (l : List Nat) (db : Db) :
    l.foldl (insertDependencyRow v) db
      = { db with dependencies := db.dependencies ++ l.map (fun d => ⟨v, d⟩) } := by
  induction l generalizing db with
  | nil => simp
  | cons a t ih => simp [List.foldl_cons, insertDependencyRow, ih]

theorem foldl_insertLoaderRow (v : Nat) (l : List Nat) (db : Db) :
    l.foldl (insertLoaderRow v) db
      = { db with loaders_versions := db.loaders_versions ++ l.map (fun d => ⟨d, v⟩) } := by
  induction l generalizing db with
  | nil => simp
  | cons a t ih => simp [List.foldl_cons, insertLoaderRow, ih]

theorem foldl_insertGameVersionRow (v : Nat) (l : List Nat) (db : Db) :
    l.foldl (insertGameVersionRow v) db
      = { db with game_versions_versions :=
            db.game_versions_versions ++ l.map (fun d => ⟨d, v⟩) } := by
  induction l generalizing db with
  | nil => simp
  | cons a t ih => simp [List.foldl_cons, insertGameVersionRow, ih]

/-- C9: for every existing version id, `Version::get_full` returns a view
whose `files` list is empty: the file and hash rows it fetches are
discarded and the `QueryVersion` is built with a fresh empty vector. -/
theorem c9_get_full_files_empty (id : Nat) (db : Db) (qv : QueryVersion)
    (h : getFull id db = some qv) : qv.files = [] := by
  unfold getFull at h
  split at h
  · exact absurd h (by simp)
  · split at h
    · exact absurd h (by simp)
    · cases h
      rfl

/-- Witness for C9 on `exDb`, whose version 1 owns a file and a hash row. -/
theorem c9_get_full_files_empty_witness :
    ∃ qv : QueryVersion, getFull 1 exDb = some qv ∧ qv.files = [] := by
  refine ⟨{ id := 1, mod_id := 2, name := "ver", version_number := "1.0.0",
            changelog_url := none, date_published := 100, downloads := 5,
            release_channel := "release", files := [],
            game_versions := ["1.16.5"], loaders := ["fabric"] }, ?_, ?_⟩
  · decide
  · exact c9_get_full_files_empty 1 exDb _ (by decide)

/-- C10: for every `VersionBuilder` with a non-empty files list,
`VersionBuilder::insert` inserts the version row, the dependency rows, the
loader rows and the game-version rows, but no file row and no hash row:
the per-file insert future is constructed and never awaited. -/
theorem c10_version_builder_insert (b : VersionBuilder) (now : Int) (db : Db)
    (hfiles : b.files ≠ []) :
    (b.insert now db).2.files = db.files ∧
    (b.insert now db).2.hashes = db.hashes ∧
    (b.insert now db).2.versions = db.versions ++ [b.versionRow now] ∧
    (b.insert now db).2.dependencies
      = db.dependencies ++ b.dependencies.map (fun d => ⟨b.version_id, d⟩) ∧
    (b.insert now db).2.loaders_versions
      = db.loaders_versions ++ b.loaders.map (fun d => ⟨d, b.version_id⟩) ∧
    (b.insert now db).2.game_versions_versions
      = db.game_versions_versions ++ b.game_versions.map (fun d => ⟨d, b.version_id⟩) ∧
    (b.insert now db).1 = b.version_id := by
  refine ⟨?_, ?_, ?_, ?_, ?_, ?_, ?_⟩ <;>
    simp [VersionBuilder.insert, VersionRow.insert,
      foldl_insertDependencyRow, foldl_insertLoaderRow, foldl_insertGameVersionRow]

/-- Witness for C10 on the concrete builder `exBuilder` (its files list is
non-empty) over `exDb`. -/
theorem c10_version_builder_insert_witness :
    exBuilder.files ≠ [] ∧
    (exBuilder.insert 200 exDb).2.files = exDb.files ∧
    (exBuilder.insert 200 exDb).2.hashes = exDb.hashes := by
  have h := c10_version_builder_insert exBuilder 200 exDb (by decide)
  exact ⟨by decide, h.1, h.2.1⟩

end VersionItem

namespace Teams

/-- C5: `add_team_member` and `edit_team_member` succeed only when the
caller is a team member whose bitset contains every permission bit being
granted together with the required capability (MANAGE_INVITES when
adding, EDIT_MEMBER when editing); whenever the caller's resolved bitset
lacks a granted bit or the required capability, the request is rejected
with an authorization error. -/
theorem c5_grant_requires_superset (u : User) (team target : Nat)
    (nm : NewMember) (em : EditTeamMember) (db : TeamsDb) :
    (∀ db', addTeamMember u team nm db = .ok db' →
      ∃ m, getFromUserId team u.id db = some m ∧
        contains m.permissions MANAGE_INVITES = true ∧
        contains m.permissions nm.permissions = true) ∧
    (∀ m, getFromUserId team u.id db = some m →
      fromBits m.permissions = some m.permissions →
      (contains m.permissions MANAGE_INVITES = false ∨
        contains m.permissions nm.permissions = false) →
      addTeamMember u team nm db = .error .authenticationError) ∧
    (∀ db' np, em.permissions = some np →
      editTeamMember u team target em db = .ok db' →
      ∃ m, getFromUserId team u.id db = some m ∧
        contains m.permissions EDIT_MEMBER = true ∧
        contains m.permissions np = true) ∧
    (∀ m np, getFromUserId team u.id db = some m →
      fromBits m.permissions = some m.permissions →
      em.permissions = some np →
      (contains m.permissions EDIT_MEMBER = false ∨
        contains m.permissions np = false) →
      editTeamMember u team target em db = .error .authenticationError) := by
  refine ⟨?_, ?_, ?_, ?_⟩
  · intro db' h
    unfold addTeamMember at h
    split at h
    · exact absurd h (by simp)
    · rename_i m hm
      split at h
      · exact absurd h (by simp)
      · rename_i p hp
        have hpm : p = m.permissions := by
          unfold fromBits at hp
          split at hp
          · exact (Option.some.inj hp).symm
          · exact absurd hp (by simp)
        subst hpm
        split at h
        · rename_i hcond
          split at h
          · exact absurd h (by simp)
          · rename_i hgrant
            refine ⟨m, hm, ?_, ?_⟩
            · exact (Bool.and_eq_true _ _ |>.mp hcond).1
            · simp only [Bool.not_eq_true'] at hgrant
              simpa using hgrant
        · exact absurd h (by simp)
  · intro m hm hv hlack
    unfold addTeamMember
    simp only [hm, hv]
    rcases hlack with hlack | hlack
    · simp [hlack]
    · by_cases hmi : contains m.permissions MANAGE_INVITES = true
      · simp [hmi, hlack]
      · simp only [Bool.not_eq_true] at hmi
        simp [hmi]
  · intro db' np hnp h
    unfold editTeamMember at h
    split at h
    · exact absurd h (by simp)
    · rename_i m hm
      split at h
      · exact absurd h (by simp)
      · rename_i p hp
        have hpm : p = m.permissions := by
          unfold fromBits at hp
          split at hp
          · exact (Option.some.inj hp).symm
          · exact absurd hp (by simp)
        subst hpm
        split at h
        · rename_i hcond
          split at h
          · rename_i np2 heq
            obtain rfl : np = np2 := Option.some.inj (hnp ▸ heq)
            split at h
            · exact absurd h (by simp)
            · rename_i hgrant
              refine ⟨m, hm, ?_, ?_⟩
              · exact (Bool.and_eq_true _ _ |>.mp hcond).1
              · simp only [Bool.not_eq_true'] at hgrant
                simpa using hgrant
          · rename_i heq
            exact absurd (hnp ▸ heq) (by simp)
        · exact absurd h (by simp)
  · intro m np hm hv hnp hlack
    unfold editTeamMember
    simp only [hm, hv]
    rcases hlack with hlack | hlack
    · simp [hlack]
    · by_cases hem : contains m.permissions EDIT_MEMBER = true
      · simp [hem, hnp, hlack]
      · simp only [Bool.not_eq_true] at hem
        simp [hem]

/-- Witness for C5: in `exTeamsDbWeak`, member user 3 (bits
UPLOAD_VERSION only) attempting to add a member with the full bitset is
rejected with an authorization error. -/
theorem c5_grant_requires_superset_witness :
    addTeamMember ⟨3, .developer⟩ 1 ⟨4, "dave", "Member", ALL⟩ exTeamsDbWeak
      = .error .authenticationError := by
  have h := (c5_grant_requires_superset ⟨3, .developer⟩ 1 1
    ⟨4, "dave", "Member", ALL⟩ ⟨none, none⟩ exTeamsDbWeak).2.1
  exact h ⟨100, 1, 3, "carol", "Member", UPLOAD_VERSION, true⟩
    (by decide) (by decide) (Or.inl (by decide))

/-- Counterexample for C6: in `exTeamsDb`, user 2 (a non-Owner member with
EDIT_MEMBER and the raw removal bits) successfully zeroes the Owner's
permission bitset through `edit_team_member`, and successfully removes the
Owner through `remove_team_member`: both generic paths can target the
member whose role is the literal "Owner". -/
theorem c6_counterexample :
    editTeamMember ⟨2, .developer⟩ 1 1 ⟨some 0, none⟩ exTeamsDb
      = .ok { members :=
                [⟨100, 1, 1, "alice", "Owner", 0, true⟩,
                 ⟨101, 1, 2, "bob", "Member", ALL, true⟩]
              next_id := 102 } ∧
    removeTeamMember ⟨2, .developer⟩ 1 1 exTeamsDb
      = .ok (some { members := [⟨101, 1, 2, "bob", "Member", ALL, true⟩]
                    next_id := 102 }) := by
  constructor
  · rfl
  · rfl

/-- C6 (amended): the generic edit path never assigns the literal role
"Owner" — any `edit_team_member` request whose requested new role is
"Owner" fails with an error — but neither `edit_team_member` nor
`remove_team_member` consults the target's current role, so a member whose
current role is "Owner" can be edited or removed like any other member. -/
theorem c6_owner_role_not_assignable (u : User) (team target : Nat)
    (em : EditTeamMember) (db : TeamsDb)
    (h : em.role = some OWNER_ROLE) :
    ∃ e, editTeamMember u team target em db = .error e := by
  unfold editTeamMember
  split
  · exact ⟨_, rfl⟩
  · split
    · exact ⟨_, rfl⟩
    · rename_i m hm p hp
      have : (contains p EDIT_MEMBER && em.role != some OWNER_ROLE) = false := by
        simp [h]
      rw [this]
      exact ⟨_, rfl⟩

/-- Witness for C6 (amended): assigning the role "Owner" to user 2 in
`exTeamsDb` is rejected. -/
theorem c6_owner_role_not_assignable_witness :
    ∃ e, editTeamMember ⟨2, .developer⟩ 1 2 ⟨none, some "Owner"⟩ exTeamsDb
      = .error e :=
  c6_owner_role_not_assignable ⟨2, .developer⟩ 1 2 ⟨none, some "Owner"⟩
    exTeamsDb rfl

end Teams

namespace Routes

/-- C8: a non-moderator team member whose bitset lacks DELETE_VERSION has
`version_delete` rejected with an authorization error (so nothing is
deleted — an error result leaves the store untouched), while a caller
whose role grants the moderator override succeeds whenever the version
exists, regardless of team membership. -/
theorem c8_version_delete_permissions (u : Teams.User) (vid : Nat) (db : Db) :
    (∀ tm, u.role.is_mod = false →
      getMemberVersion vid u.id db = some tm →
      Teams.contains tm.permissions Teams.DELETE_VERSION = false →
      versionDelete u vid db = .error (.customAuthenticationError
        "You do not have permission to delete versions in this team")) ∧
    (u.role.is_mod = true → ∀ v ∈ db.versions, v.id = vid →
      ∃ db', versionDelete u vid db = .ok (some db')) := by
  constructor
  · intro tm hmod hmem hperm
    simp only [versionDelete, hmod, hmem, hperm, Bool.not_false, if_true,
      Bool.not_true, Bool.false_eq_true, if_false]
    rfl
  · intro hmod v hv hvid
    have hfind : (db.versions.find? (fun w => w.id == vid)).isSome := by
      rw [List.find?_isSome]
      exact ⟨v, hv, by simp [hvid]⟩
    obtain ⟨w, hw⟩ := Option.isSome_iff_exists.mp hfind
    obtain ⟨db', hdb'⟩ : ∃ d, removeFullVersion vid db = some d := by
      unfold removeFullVersion
      rw [hw]
      exact ⟨_, rfl⟩
    refine ⟨db', ?_⟩
    simp only [versionDelete, hmod, Bool.not_true, Bool.false_eq_true, if_false, hdb']
    rfl

/-- Witness for C8: in a store whose only member of the owning team lacks
DELETE_VERSION, that member's delete is rejected, and an admin's delete
of the same version succeeds. -/
theorem c8_version_delete_permissions_witness :
    versionDelete ⟨3, .developer⟩ 9 exDb8 = .error (.customAuthenticationError
      "You do not have permission to delete versions in this team") ∧
    ∃ db', versionDelete ⟨77, .admin⟩ 9 exDb8 = .ok (some db') := by
  constructor
  · exact (c8_version_delete_permissions ⟨3, .developer⟩ 9 exDb8).1
      ⟨100, 1, 3, "carol", "Member", Teams.UPLOAD_VERSION, true⟩
      (by decide) (by decide) (by decide)
  · exact (c8_version_delete_permissions ⟨77, .admin⟩ 9 exDb8).2 (by decide)
      (exDb8.versions.head (by decide)) (by decide) (by decide)

/-- Inversion of a successful `Except` bind. -/
theorem bindOk {ε α β : Type} {x : Except ε α}
    {f : α → Except ε β} {b : β} (h : (x >>= f) = .ok b) :
    ∃ a, x = .ok a ∧ f a = .ok b := by
  cases x with
  | error e => simp [Bind.bind, Except.bind] at h
  | ok a => exact ⟨a, rfl, by simpa [Bind.bind, Except.bind] using h⟩

/-- A fold whose step preserves the `files` and `hashes` tables preserves
them as a whole. -/
theorem foldlM_preserves_fh {σ : Type} {f : Db → σ → Except Teams.ApiError Db}
    (hf : ∀ db x db', f db x = .ok db' → db'.files = db.files ∧ db'.hashes = db.hashes) :
    ∀ (l : List σ) (db db' : Db), l.foldlM f db = .ok db' →
      db'.files = db.files ∧ db'.hashes = db.hashes := by
  intro l
  induction l with
  | nil =>
    intro db db' h
    simp only [List.foldlM_nil, pure] at h
    cases h
    exact ⟨rfl, rfl⟩
  | cons a t ih =>
    intro db db' h
    rw [List.foldlM_cons] at h
    obtain ⟨db1, h1, h2⟩ := bindOk h
    obtain ⟨hf1, hh1⟩ := hf db a db1 h1
    obtain ⟨hf2, hh2⟩ := ih db1 db' h2
    exact ⟨hf2.trans hf1, hh2.trans hh1⟩

/-- `editName` touches only the `versions` table. -/
theorem editName_pfh {id : Nat} {req : EditVersion} {db db' : Db}
    (h : editName id req db = .ok db') :
    db'.files = db.files ∧ db'.hashes = db.hashes := by
  unfold editName at h
  split at h
  · cases h; exact ⟨rfl, rfl⟩
  · split at h
    · exact absurd h (by simp)
    · cases h; exact ⟨rfl, rfl⟩

/-- `editNumber` touches only the `versions` table. -/
theorem editNumber_pfh {id : Nat} {req : EditVersion} {db db' : Db}
    (h : editNumber id req db = .ok db') :
    db'.files = db.files ∧ db'.hashes = db.hashes := by
  unfold editNumber at h
  split at h
  · cases h; exact ⟨rfl, rfl⟩
  · split at h
    · exact absurd h (by simp)
    · cases h; exact ⟨rfl, rfl⟩

/-- `editVersionType` touches only the `versions` table. -/
theorem editVersionType_pfh {id : Nat} {req : EditVersion} {db db' : Db}
    (h : editVersionType id req db = .ok db') :
    db'.files = db.files ∧ db'.hashes = db.hashes := by
  unfold editVersionType at h
  split at h
  · cases h; exact ⟨rfl, rfl⟩
  · split at h
    · exact absurd h (by simp)
    · cases h; exact ⟨rfl, rfl⟩

/-- `editDependencies` touches only the `dependencies` table. -/
theorem editDependencies_pfh {id : Nat} {req : EditVersion} {db db' : Db}
    (h : editDependencies id req db = .ok db') :
    db'.files = db.files ∧ db'.hashes = db.hashes := by
  unfold editDependencies at h
  split at h
  · cases h; exact ⟨rfl, rfl⟩
  · cases h; exact ⟨rfl, rfl⟩

/-- `editGameVersions` touches only the game-version join table. -/
theorem editGameVersions_pfh {id : Nat} {req : EditVersion} {db db' : Db}
    (h : editGameVersions id req db = .ok db') :
    db'.files = db.files ∧ db'.hashes = db.hashes := by
  unfold editGameVersions at h
  split at h
  · cases h; exact ⟨rfl, rfl⟩
  · obtain ⟨hf, hh⟩ := foldlM_preserves_fh (fun dbx x dbx' hfold => by
      split at hfold
      · exact absurd hfold (by simp)
      · cases hfold; exact ⟨rfl, rfl⟩) _ _ db' h
    exact ⟨hf, hh⟩

/-- `editLoaders` touches only the loader join table. -/
theorem editLoaders_pfh {id : Nat} {req : EditVersion} {db db' : Db}
    (h : editLoaders id req db = .ok db') :
    db'.files = db.files ∧ db'.hashes = db.hashes := by
  unfold editLoaders at h
  split at h
  · cases h; exact ⟨rfl, rfl⟩
  · obtain ⟨hf, hh⟩ := foldlM_preserves_fh (fun dbx x dbx' hfold => by
      split at hfold
      · exact absurd hfold (by simp)
      · cases hfold; exact ⟨rfl, rfl⟩) _ _ db' h
    exact ⟨hf, hh⟩

/-- `editFeatured` touches only the `versions` table. -/
theorem editFeatured_pfh {id : Nat} {req : EditVersion} {db db' : Db}
    (h : editFeatured id req db = .ok db') :
    db'.files = db.files ∧ db'.hashes = db.hashes := by
  unfold editFeatured at h
  split at h
  · cases h; exact ⟨rfl, rfl⟩
  · cases h; exact ⟨rfl, rfl⟩

/-- `editChangelog` touches only the `versions` table. -/
theorem editChangelog_pfh {id : Nat} {req : EditVersion} {db db' : Db}
    (h : editChangelog id req db = .ok db') :
    db'.files = db.files ∧ db'.hashes = db.hashes := by
  unfold editChangelog at h
  split at h
  · cases h; exact ⟨rfl, rfl⟩
  · split at h
    · exact absurd h (by simp)
    · cases h; exact ⟨rfl, rfl⟩

/-- The hash resolution query reads only `hashes` and `files`. -/
theorem resolveHash_congr {alg hsh : String} {db₁ db₂ : Db}
    (hf : db₁.files = db₂.files) (hh : db₁.hashes = db₂.hashes) :
    resolveHash alg hsh db₁ = resolveHash alg hsh db₂ := by
  unfold resolveHash
  rw [hf, hh]

/-- A list of rows with pairwise-distinct ids has at most one member in
any filter whose members all share one id. -/
theorem length_filter_le_one (c : Nat) {l : List FRow} (hnd : (l.map FRow.id).Nodup)
    {p : FRow → Bool} (hall : ∀ f ∈ l.filter p, f.id = c) :
    (l.filter p).length ≤ 1 := by
  have hsub : (l.filter p).Sublist l := List.filter_sublist l
  have hnd' : ((l.filter p).map FRow.id).Nodup :=
    List.Nodup.sublist (List.Sublist.map FRow.id hsub) hnd
  match hm : l.filter p with
  | [] => simp
  | [a] => simp
  | a :: b :: rest =>
    exfalso
    rw [hm] at hnd' hall
    have ha : a.id = c := hall a (by simp)
    have hb : b.id = c := hall b (by simp)
    simp only [List.map_cons, List.nodup_cons, List.mem_cons, List.mem_map] at hnd'
    exact hnd'.1 (Or.inl (by rw [ha, hb]))

/-- A successful `getFullVersion` returns the queried id. -/
theorem getFullVersion_id {vid : Nat} {db : Db} {qv : RQueryVersion}
    (h : getFullVersion vid db = some qv) : qv.id = vid := by
  unfold getFullVersion at h
  obtain ⟨row, hrow, h2⟩ := Option.bind_eq_some.mp h
  obtain ⟨rc, hrc, h3⟩ := Option.map_eq_some'.mp h2
  have := List.find?_some hrow
  cases h3
  simpa using this

/-- Case analysis of clearing then setting the primary flag on one file
row: the id is unchanged, and a row that ends up primary in the edited
version is the resolved file. -/
theorem primary_flip_cases (vid fid : Nat) (g : FRow) :
    ∀ c fv : FRow,
      c = (if g.version_id == vid then { g with is_primary := false } else g) →
      fv = (if c.id == fid then { c with is_primary := true } else c) →
      fv.id = g.id ∧ fv.version_id = g.version_id ∧
        (fv.version_id = vid → fv.is_primary = true → fv.id = fid) := by
  intro c fv hc hfv
  subst hc
  subst hfv
  by_cases h1 : (g.version_id == vid) = true
  · by_cases h2 : (g.id == fid) = true
    · simp [h1, h2]
      intro _
      simpa using h2
    · simp [h1, h2]
  · by_cases h2 : (g.id == fid) = true
    · simp [h1, h2]
      intro _
      simpa using h2
    · simp [h1, h2]
      intro hv hp
      exact absurd hv (by simpa using h1)

/-- C3: a `version_edit` request that sets `primary_file` to an
(algorithm, hash) pair never succeeds when no file carries that hash, and
(when the branch is reached) fails with the hard input error naming the
hash; on success at most one file of the edited version is primary and
every primary file of that version is the file resolved from the hash,
the siblings having been cleared before the target was set. -/
theorem c3_version_edit_primary_file (u : Teams.User) (vid : Nat)
    (alg hsh : String) (req : EditVersion) (db : Db)
    (hpf : req.primary_file = some (alg, hsh)) :
    (resolveHash alg hsh db = none →
      ∀ db', versionEdit u vid req db ≠ .ok (some db')) ∧
    (resolveHash alg hsh db = none →
      req.name = none → req.version_number = none → req.version_type = none →
      req.dependencies = none → req.game_versions = none → req.loaders = none →
      req.featured = none →
      ∀ qv tm, getFullVersion vid db = some qv →
        getMemberVersion vid u.id db = some tm →
        Teams.contains tm.permissions Teams.UPLOAD_VERSION = true →
        versionEdit u vid req db = .error (.invalidInputError
          ("Specified file with hash " ++ hsh ++ " does not exist."))) ∧
    (∀ db', versionEdit u vid req db = .ok (some db') →
      ∃ hr, resolveHash alg hsh db = some hr ∧
        (∀ f ∈ db'.files, f.version_id = vid → f.is_primary = true →
          f.id = hr.file_id) ∧
        ((db.files.map FRow.id).Nodup →
          (db'.files.filter (fun f => f.version_id == vid && f.is_primary)).length ≤ 1)) := by
  have main : ∀ db', versionEdit u vid req db = .ok (some db') →
      ∃ hr, resolveHash alg hsh db = some hr ∧
        db'.files = (db.files.map (fun g : FRow =>
            if g.version_id == vid then { g with is_primary := false } else g)).map
          (fun g : FRow =>
            if g.id == hr.file_id then { g with is_primary := true } else g) := by
    intro db' h
    have tail : ((do
        let db ← editName vid req db
        let db ← editNumber vid req db
        let db ← editVersionType vid req db
        let db ← editDependencies vid req db
        let db ← editGameVersions vid req db
        let db ← editLoaders vid req db
        let db ← editFeatured vid req db
        let db ← editPrimaryFile vid req db
        let db ← editChangelog vid req db
        Except.ok (some db)) = Except.ok (some db')) →
        ∃ hr, resolveHash alg hsh db = some hr ∧
          db'.files = (db.files.map (fun g : FRow =>
              if g.version_id == vid then { g with is_primary := false } else g)).map
            (fun g : FRow =>
              if g.id == hr.file_id then { g with is_primary := true } else g) := by
      intro h
      obtain ⟨db1, h1, h⟩ := bindOk h
      obtain ⟨db2, h2, h⟩ := bindOk h
      obtain ⟨db3, h3, h⟩ := bindOk h
      obtain ⟨db4, h4, h⟩ := bindOk h
      obtain ⟨db5, h5, h⟩ := bindOk h
      obtain ⟨db6, h6, h⟩ := bindOk h
      obtain ⟨db7, h7, h⟩ := bindOk h
      obtain ⟨db8, h8, h⟩ := bindOk h
      obtain ⟨db9, h9, h⟩ := bindOk h
      obtain rfl : db9 = db' := by
        have := Except.ok.inj h
        exact Option.some.inj this
      obtain ⟨f1, g1⟩ := editName_pfh h1
      obtain ⟨f2, g2⟩ := editNumber_pfh h2
      obtain ⟨f3, g3⟩ := editVersionType_pfh h3
      obtain ⟨f4, g4⟩ := editDependencies_pfh h4
      obtain ⟨f5, g5⟩ := editGameVersions_pfh h5
      obtain ⟨f6, g6⟩ := editLoaders_pfh h6
      obtain ⟨f7, g7⟩ := editFeatured_pfh h7
      have hF : db7.files = db.files := by
        rw [f7, f6, f5, f4, f3, f2, f1]
      have hH : db7.hashes = db.hashes := by
        rw [g7, g6, g5, g4, g3, g2, g1]
      simp only [editPrimaryFile, hpf] at h8
      rw [resolveHash_congr hF hH] at h8
      split at h8
      · exact absurd h8 (by simp)
      · rename_i hr hres
        cases h8
        obtain ⟨f9, g9⟩ := editChangelog_pfh h9
        refine ⟨hr, hres, ?_⟩
        rw [f9]
        simp only [hF]
    unfold versionEdit at h
    split at h
    · exact absurd h (by simp)
    · rename_i qv hqv
      simp only [] at h
      rcases hmv : getMemberVersion qv.id u.id db with _ | member
      · rw [hmv] at h
        cases hmod : u.role.is_mod
        · rw [hmod] at h
          exact absurd h (by simp)
        · rw [hmod] at h
          simp only [Bool.true_eq_false, if_true, reduceIte] at h
          split at h
          · exact absurd h (by simp)
          · exact tail h
      · rw [hmv] at h
        simp only [] at h
        split at h
        · exact absurd h (by simp)
        · exact tail h
  refine ⟨?_, ?_, ?_⟩
  · intro hres db' h
    obtain ⟨hr, hres', _⟩ := main db' h
    rw [hres] at hres'
    exact absurd hres' (by simp)
  · intro hres h1 h2 h3 h4 h5 h6 h7 qv tm hqv hm hperm
    have hqid : qv.id = vid := getFullVersion_id hqv
    unfold versionEdit
    rw [hqv]
    simp only [hqid, hm, hperm, Bool.not_true, Bool.false_eq_true, if_false,
      editName, h1, editNumber, h2, editVersionType, h3, editDependencies, h4,
      editGameVersions, h5, editLoaders, h6, editFeatured, h7,
      editPrimaryFile, hpf, hres, Bind.bind, Except.bind]
  · intro db' h
    obtain ⟨hr, hres, hfiles⟩ := main db' h
    have hprim : ∀ f ∈ db'.files, f.version_id = vid → f.is_primary = true →
        f.id = hr.file_id := by
      intro f hf hv hp
      rw [hfiles] at hf
      obtain ⟨g1, hg1, rfl⟩ := List.mem_map.mp hf
      obtain ⟨g, hg, rfl⟩ := List.mem_map.mp hg1
      exact (primary_flip_cases vid hr.file_id g _ _ rfl rfl).2.2 hv hp
    refine ⟨hr, hres, hprim, ?_⟩
    intro hnd
    have hnd' : (db'.files.map FRow.id).Nodup := by
      have heq : db'.files.map FRow.id = db.files.map FRow.id := by
        rw [hfiles, List.map_map, List.map_map]
        apply List.map_congr_left
        intro g hg
        simp only [Function.comp]
        exact (primary_flip_cases vid hr.file_id g _ _ rfl rfl).1
      rw [heq]
      exact hnd
    refine length_filter_le_one hr.file_id hnd' ?_
    intro f hf
    have hmem := List.mem_filter.mp hf
    have hp := hmem.2
    simp only [Bool.and_eq_true, beq_iff_eq] at hp
    exact hprim f hmem.1 hp.1 hp.2

/-- Witness for C3: on `exDb3` the hash "abc123" resolves to file 10, and
after a successful `version_edit` moving the primary there, every primary
file of version 9 is file 10 and at most one file of version 9 is
primary. -/
theorem c3_version_edit_primary_file_witness :
    ∃ hr, resolveHash "sha1" "abc123" exDb3 = some hr ∧
      (∀ f ∈ exDb3'.files, f.version_id = 9 → f.is_primary = true →
        f.id = hr.file_id) ∧
      ((exDb3.files.map FRow.id).Nodup →
        (exDb3'.files.filter (fun f => f.version_id == 9 && f.is_primary)).length ≤ 1) :=
  (c3_version_edit_primary_file ⟨3, .developer⟩ 9 "sha1" "abc123" req3 exDb3
    rfl).2.2 exDb3' (by rfl)

/-- Updating one project row with an id- and issues-preserving function
leaves every row's (id, issues_url) projection unchanged. -/
theorem updateModRow_proj (pid : Nat) (f : ModRow → ModRow) (db : Db)
    (hf : ∀ m, (f m).id = m.id ∧ (f m).issues_url = m.issues_url) :
    (updateModRow pid f db).mods.map (fun m => (m.id, m.issues_url))
      = db.mods.map (fun m => (m.id, m.issues_url)) := by
  unfold updateModRow
  simp only [List.map_map]
  apply List.map_congr_left
  intro m hm
  simp only [Function.comp]
  by_cases hc : (m.id == pid) = true
  · simp [hc, (hf m).1, (hf m).2]
  · simp [hc]

/-- A fold whose step preserves the `mods` table preserves it as a
whole. -/
theorem foldlM_preserves_mods {σ : Type} {f : Db → σ → Except Teams.ApiError Db}
    (hf : ∀ db x db', f db x = .ok db' → db'.mods = db.mods) :
    ∀ (l : List σ) (db db' : Db), l.foldlM f db = .ok db' → db'.mods = db.mods := by
  intro l
  induction l with
  | nil =>
    intro db db' h
    simp only [List.foldlM_nil, pure] at h
    cases h
    rfl
  | cons a t ih =>
    intro db db' h
    rw [List.foldlM_cons] at h
    obtain ⟨db1, h1, h2⟩ := bindOk h
    exact (ih db1 db' h2).trans (hf db a db1 h1)

/-- `peTitle` preserves every row's (id, issues_url). -/
theorem peTitle_proj {perms : Teams.Permissions} {pid : Nat} {req : EditProject}
    {db db' : Db} (h : peTitle perms pid req db = .ok db') :
    db'.mods.map (fun m => (m.id, m.issues_url))
      = db.mods.map (fun m => (m.id, m.issues_url)) := by
  unfold peTitle at h
  split at h
  · cases h; rfl
  · split at h
    · exact absurd h (by simp)
    · split at h
      · exact absurd h (by simp)
      · cases h
        exact updateModRow_proj pid _ db (fun m => ⟨rfl, rfl⟩)

/-- `peDescription` preserves every row's (id, issues_url). -/
theorem peDescription_proj {perms : Teams.Permissions} {pid : Nat}
    {req : EditProject} {db db' : Db} (h : peDescription perms pid req db = .ok db') :
    db'.mods.map (fun m => (m.id, m.issues_url))
      = db.mods.map (fun m => (m.id, m.issues_url)) := by
  unfold peDescription at h
  split at h
  · cases h; rfl
  · split at h
    · exact absurd h (by simp)
    · split at h
      · exact absurd h (by simp)
      · cases h
        exact updateModRow_proj pid _ db (fun m => ⟨rfl, rfl⟩)

/-- `peStatus` preserves every row's (id, issues_url). -/
theorem peStatus_proj {u : Teams.User} {perms : Teams.Permissions} {pid : Nat}
    {qp : QueryProject} {req : EditProject} {db db' : Db}
    (h : peStatus u perms pid qp req db = .ok db') :
    db'.mods.map (fun m => (m.id, m.issues_url))
      = db.mods.map (fun m => (m.id, m.issues_url)) := by
  unfold peStatus at h
  split at h
  · cases h; rfl
  · split at h
    · exact absurd h (by simp)
    · split at h
      · exact absurd h (by simp)
      · split at h
        · exact absurd h (by simp)
        · split at h
          · cases h
            exact updateModRow_proj pid _ db (fun m => ⟨rfl, rfl⟩)
          · split at h
            · cases h
              exact updateModRow_proj pid _ db (fun m => ⟨rfl, rfl⟩)
            · cases h
              exact updateModRow_proj pid _ db (fun m => ⟨rfl, rfl⟩)

/-- `peCategories` preserves the `mods` table itself. -/
theorem peCategories_proj {perms : Teams.Permissions} {pid : Nat}
    {req : EditProject} {db db' : Db} (h : peCategories perms pid req db = .ok db') :
    db'.mods.map (fun m => (m.id, m.issues_url))
      = db.mods.map (fun m => (m.id, m.issues_url)) := by
  unfold peCategories at h
  split at h
  · cases h; rfl
  · split at h
    · exact absurd h (by simp)
    · split at h
      · exact absurd h (by simp)
      · have := foldlM_preserves_mods (fun dbx x dbx' hfold => by
          split at hfold
          · exact absurd hfold (by simp)
          · cases hfold; rfl) _ _ db' h
        rw [this]

/-- The generic url-branch shape (perm gate, length gate, row update)
preserves (id, issues_url) whenever the update function does. -/
theorem peSourceUrl_proj {perms : Teams.Permissions} {pid : Nat}
    {req : EditProject} {db db' : Db} (h : peSourceUrl perms pid req db = .ok db') :
    db'.mods.map (fun m => (m.id, m.issues_url))
      = db.mods.map (fun m => (m.id, m.issues_url)) := by
  unfold peSourceUrl at h
  split at h
  · cases h; rfl
  · split at h
    · exact absurd h (by simp)
    · split at h
      · exact absurd h (by simp)
      · cases h
        exact updateModRow_proj pid _ db (fun m => ⟨rfl, rfl⟩)

/-- `peWikiUrl` preserves every row's (id, issues_url). -/
theorem peWikiUrl_proj {perms : Teams.Permissions} {pid : Nat}
    {req : EditProject} {db db' : Db} (h : peWikiUrl perms pid req db = .ok db') :
    db'.mods.map (fun m => (m.id, m.issues_url))
      = db.mods.map (fun m => (m.id, m.issues_url)) := by
  unfold peWikiUrl at h
  split at h
  · cases h; rfl
  · split at h
    · exact absurd h (by simp)
    · split at h
      · exact absurd h (by simp)
      · cases h
        exact updateModRow_proj pid _ db (fun m => ⟨rfl, rfl⟩)

/-- `peLicenseUrl` preserves every row's (id, issues_url). -/
theorem peLicenseUrl_proj {perms : Teams.Permissions} {pid : Nat}
    {req : EditProject} {db db' : Db} (h : peLicenseUrl perms pid req db = .ok db') :
    db'.mods.map (fun m => (m.id, m.issues_url))
      = db.mods.map (fun m => (m.id, m.issues_url)) := by
  unfold peLicenseUrl at h
  split at h
  · cases h; rfl
  · split at h
    · exact absurd h (by simp)
    · split at h
      · exact absurd h (by simp)
      · cases h
        exact updateModRow_proj pid _ db (fun m => ⟨rfl, rfl⟩)

/-- `peDiscordUrl` preserves every row's (id, issues_url). -/
theorem peDiscordUrl_proj {perms : Teams.Permissions} {pid : Nat}
    {req : EditProject} {db db' : Db} (h : peDiscordUrl perms pid req db = .ok db') :
    db'.mods.map (fun m => (m.id, m.issues_url))
      = db.mods.map (fun m => (m.id, m.issues_url)) := by
  unfold peDiscordUrl at h
  split at h
  · cases h; rfl
  · split at h
    · exact absurd h (by simp)
    · split at h
      · exact absurd h (by simp)
      · cases h
        exact updateModRow_proj pid _ db (fun m => ⟨rfl, rfl⟩)

/-- `peSlug` preserves every row's (id, issues_url). -/
theorem peSlug_proj {perms : Teams.Permissions} {pid : Nat}
    {req : EditProject} {db db' : Db} (h : peSlug perms pid req db = .ok db') :
    db'.mods.map (fun m => (m.id, m.issues_url))
      = db.mods.map (fun m => (m.id, m.issues_url)) := by
  unfold peSlug at h
  split at h
  · cases h; rfl
  · split at h
    · exact absurd h (by simp)
    · simp only [] at h
      split at h
      · split at h
        · exact absurd h (by simp)
        · split at h
          · split at h
            · exact absurd h (by simp)
            · cases h
              exact updateModRow_proj pid _ db (fun m => ⟨rfl, rfl⟩)
          · cases h
            exact updateModRow_proj pid _ db (fun m => ⟨rfl, rfl⟩)
      · cases h
        exact updateModRow_proj pid _ db (fun m => ⟨rfl, rfl⟩)

/-- `peClientSide` preserves every row's (id, issues_url). -/
theorem peClientSide_proj {perms : Teams.Permissions} {pid : Nat}
    {req : EditProject} {db db' : Db} (h : peClientSide perms pid req db = .ok db') :
    db'.mods.map (fun m => (m.id, m.issues_url))
      = db.mods.map (fun m => (m.id, m.issues_url)) := by
  unfold peClientSide at h
  split at h
  · cases h; rfl
  · split at h
    · exact absurd h (by simp)
    · split at h
      · exact absurd h (by simp)
      · cases h
        exact updateModRow_proj pid _ db (fun m => ⟨rfl, rfl⟩)

/-- `peServerSide` preserves every row's (id, issues_url). -/
theorem peServerSide_proj {perms : Teams.Permissions} {pid : Nat}
    {req : EditProject} {db db' : Db} (h : peServerSide perms pid req db = .ok db') :
    db'.mods.map (fun m => (m.id, m.issues_url))
      = db.mods.map (fun m => (m.id, m.issues_url)) := by
  unfold peServerSide at h
  split at h
  · cases h; rfl
  · split at h
    · exact absurd h (by simp)
    · split at h
      · exact absurd h (by simp)
      · cases h
        exact updateModRow_proj pid _ db (fun m => ⟨rfl, rfl⟩)

/-- `peLicense` preserves every row's (id, issues_url). -/
theorem peLicense_proj {perms : Teams.Permissions} {pid : Nat}
    {req : EditProject} {db db' : Db} (h : peLicense perms pid req db = .ok db') :
    db'.mods.map (fun m => (m.id, m.issues_url))
      = db.mods.map (fun m => (m.id, m.issues_url)) := by
  unfold peLicense at h
  split at h
  · cases h; rfl
  · split at h
    · exact absurd h (by simp)
    · split at h
      · exact absurd h (by simp)
      · cases h
        exact updateModRow_proj pid _ db (fun m => ⟨rfl, rfl⟩)

/-- `peDonations` preserves the `mods` table itself. -/
theorem peDonations_proj {perms : Teams.Permissions} {pid : Nat}
    {req : EditProject} {db db' : Db} (h : peDonations perms pid req db = .ok db') :
    db'.mods.map (fun m => (m.id, m.issues_url))
      = db.mods.map (fun m => (m.id, m.issues_url)) := by
  unfold peDonations at h
  split at h
  · cases h; rfl
  · split at h
    · exact absurd h (by simp)
    · have := foldlM_preserves_mods (fun dbx x dbx' hfold => by
        split at hfold
        · exact absurd hfold (by simp)
        · cases hfold; rfl) _ _ db' h
      rw [this]

/-- `peBody` preserves every row's (id, issues_url). -/
theorem peBody_proj {perms : Teams.Permissions} {pid : Nat}
    {req : EditProject} {db db' : Db} (h : peBody perms pid req db = .ok db') :
    db'.mods.map (fun m => (m.id, m.issues_url))
      = db.mods.map (fun m => (m.id, m.issues_url)) := by
  unfold peBody at h
  split at h
  · cases h; rfl
  · split at h
    · exact absurd h (by simp)
    · split at h
      · exact absurd h (by simp)
      · cases h
        exact updateModRow_proj pid _ db (fun m => ⟨rfl, rfl⟩)

/-- `peIssuesUrl` with the field absent is the identity. -/
theorem peIssuesUrl_absent (perms : Teams.Permissions) (pid : Nat)
    {req : EditProject} (db : Db) (hreq : req.issues_url = none) :
    peIssuesUrl perms pid req db = .ok db := by
  unfold peIssuesUrl
  rw [hreq]

/-- A successful `peIssuesUrl` with the field present writes exactly the
requested value into the project row. -/
theorem peIssuesUrl_set {perms : Teams.Permissions} {pid : Nat}
    {req : EditProject} {db db' : Db} {opt : Option String}
    (hreq : req.issues_url = some opt) (h : peIssuesUrl perms pid req db = .ok db') :
    db'.mods = db.mods.map (fun m =>
      if m.id == pid then { m with issues_url := opt } else m) := by
  unfold peIssuesUrl at h
  rw [hreq] at h
  simp only [] at h
  split at h
  · exact absurd h (by simp)
  · split at h
    · exact absurd h (by simp)
    · cases h
      rfl

/-- Equal (id, issues_url) projections give equal issues lookups. -/
theorem find?_issues_congr (pid : Nat) :
    ∀ {l l' : List ModRow},
      l'.map (fun m => (m.id, m.issues_url)) = l.map (fun m => (m.id, m.issues_url)) →
      (l'.find? (fun m => m.id == pid)).map ModRow.issues_url
        = (l.find? (fun m => m.id == pid)).map ModRow.issues_url := by
  intro l
  induction l with
  | nil =>
    intro l' h
    have : l' = [] := by
      cases l' with
      | nil => rfl
      | cons a t => simp at h
    rw [this]
  | cons b tb ih =>
    intro l' h
    cases l' with
    | nil => simp at h
    | cons a ta =>
      simp only [List.map_cons, List.cons.injEq, Prod.mk.injEq] at h
      obtain ⟨⟨hid, hiss⟩, htail⟩ := h
      rw [List.find?_cons, List.find?_cons, hid]
      by_cases hc : (b.id == pid) = true
      · simp [hc, hiss]
      · simp only [hc, Bool.false_eq_true, if_false]
        exact ih htail

/-- `find?` by id commutes with an id-preserving row map. -/
theorem find?_map_id_pres {g : ModRow → ModRow} (hg : ∀ m, (g m).id = m.id)
    (pid : Nat) : ∀ l : List ModRow,
      (l.map g).find? (fun m => m.id == pid)
        = (l.find? (fun m => m.id == pid)).map g := by
  intro l
  induction l with
  | nil => rfl
  | cons a t ih =>
    rw [List.map_cons, List.find?_cons, List.find?_cons, hg]
    by_cases hc : (a.id == pid) = true
    · simp [hc]
    · simp only [hc, Bool.false_eq_true, if_false]
      exact ih

/-- The effect of a successful `project_edit` on the edited project's
`issues_url`: an absent field leaves it unchanged, a present field (null
or value) writes exactly the requested value. -/
theorem projectEdit_issues (u : Teams.User) (pid : Nat) (r : EditProject)
    (db d : Db) (h : projectEdit u pid r db = .ok (some d)) :
    (r.issues_url = none →
      (d.mods.find? (fun m => m.id == pid)).map ModRow.issues_url
        = (db.mods.find? (fun m => m.id == pid)).map ModRow.issues_url) ∧
    (∀ opt, r.issues_url = some opt →
      (db.mods.find? (fun m => m.id == pid)).isSome →
      (d.mods.find? (fun m => m.id == pid)).map ModRow.issues_url = some opt) := by
  unfold projectEdit at h
  split at h
  · exact absurd h (by simp)
  · rename_i qp hqp
    simp only [] at h
    have tail : ∀ perms : Teams.Permissions,
        ((do
          let db ← peTitle perms pid r db
          let db ← peDescription perms pid r db
          let db ← peStatus u perms pid qp r db
          let db ← peCategories perms pid r db
          let db ← peIssuesUrl perms pid r db
          let db ← peSourceUrl perms pid r db
          let db ← peWikiUrl perms pid r db
          let db ← peLicenseUrl perms pid r db
          let db ← peDiscordUrl perms pid r db
          let db ← peSlug perms pid r db
          let db ← peClientSide perms pid r db
          let db ← peServerSide perms pid r db
          let db ← peLicense perms pid r db
          let db ← peDonations perms pid r db
          let db ← peBody perms pid r db
          Except.ok (some db)) = Except.ok (some d)) →
        (r.issues_url = none →
          (d.mods.find? (fun m => m.id == pid)).map ModRow.issues_url
            = (db.mods.find? (fun m => m.id == pid)).map ModRow.issues_url) ∧
        (∀ opt, r.issues_url = some opt →
          (db.mods.find? (fun m => m.id == pid)).isSome →
          (d.mods.find? (fun m => m.id == pid)).map ModRow.issues_url = some opt) := by
      intro perms h
      obtain ⟨e1, k1, h⟩ := bindOk h
      obtain ⟨e2, k2, h⟩ := bindOk h
      obtain ⟨e3, k3, h⟩ := bindOk h
      obtain ⟨e4, k4, h⟩ := bindOk h
      obtain ⟨e5, k5, h⟩ := bindOk h
      obtain ⟨e6, k6, h⟩ := bindOk h
      obtain ⟨e7, k7, h⟩ := bindOk h
      obtain ⟨e8, k8, h⟩ := bindOk h
      obtain ⟨e9, k9, h⟩ := bindOk h
      obtain ⟨e10, k10, h⟩ := bindOk h
      obtain ⟨e11, k11, h⟩ := bindOk h
      obtain ⟨e12, k12, h⟩ := bindOk h
      obtain ⟨e13, k13, h⟩ := bindOk h
      obtain ⟨e14, k14, h⟩ := bindOk h
      obtain ⟨e15, k15, h⟩ := bindOk h
      have hde : e15 = d := by
        have := Except.ok.inj h
        exact Option.some.inj this
      have pre : e4.mods.map (fun m => (m.id, m.issues_url))
          = db.mods.map (fun m => (m.id, m.issues_url)) := by
        rw [peCategories_proj k4, peStatus_proj k3, peDescription_proj k2,
          peTitle_proj k1]
      have post : d.mods.map (fun m => (m.id, m.issues_url))
          = e5.mods.map (fun m => (m.id, m.issues_url)) := by
        rw [← hde, peBody_proj k15, peDonations_proj k14, peLicense_proj k13,
          peServerSide_proj k12, peClientSide_proj k11, peSlug_proj k10,
          peDiscordUrl_proj k9, peLicenseUrl_proj k8, peWikiUrl_proj k7,
          peSourceUrl_proj k6]
      constructor
      · intro habsent
        have h5 : e5 = e4 := by
          have heq := peIssuesUrl_absent perms pid e4 habsent
          rw [heq] at k5
          exact (Except.ok.inj k5).symm
        subst h5
        exact find?_issues_congr pid (post.trans pre)
      · intro opt hset hsome
        have h5 := peIssuesUrl_set hset k5
        have hd : (d.mods.find? (fun m => m.id == pid)).map ModRow.issues_url
            = (e5.mods.find? (fun m => m.id == pid)).map ModRow.issues_url :=
          find?_issues_congr pid post
        have he4 : (e4.mods.find? (fun m => m.id == pid)).map ModRow.issues_url
            = (db.mods.find? (fun m => m.id == pid)).map ModRow.issues_url :=
          find?_issues_congr pid pre
        obtain ⟨r0, hr0⟩ := Option.isSome_iff_exists.mp hsome
        have he4some : ∃ r4, e4.mods.find? (fun m => m.id == pid) = some r4 := by
          rw [hr0] at he4
          cases hfind : e4.mods.find? (fun m => m.id == pid) with
          | none => rw [hfind] at he4; simp at he4
          | some r4 => exact ⟨r4, rfl⟩
        obtain ⟨r4, hr4⟩ := he4some
        have hid4 : (r4.id == pid) = true := by
          have := List.find?_some hr4
          simpa using this
        rw [hd, h5, find?_map_id_pres (fun m => by
            by_cases hc : (m.id == pid) = true <;> simp [hc]) pid, hr4]
        have hid4' : r4.id = pid := by simpa using hid4
        simp [hid4']
    rcases hmv : getMember qp.inner.team_id u.id db with _ | member
    · rw [hmv] at h
      cases hmod : u.role.is_mod
      · rw [hmod] at h
        exact absurd h (by simp)
      · rw [hmod] at h
        simp only [Bool.true_eq_false, if_true, reduceIte] at h
        exact tail Teams.ALL h
    · rw [hmv] at h
      simp only [] at h
      exact tail member.permissions h

/-- C7: for a project edit on an existing project, sending `issues_url`
as JSON null clears the persisted value, omitting the field leaves it
unchanged, and the two requests persist different results whenever the
prior value was non-empty. -/
theorem c7_issues_url_three_valued (u : Teams.User) (pid : Nat)
    (req : EditProject) (db db₁ db₂ : Db) (v : String)
    (hreq : req.issues_url = some none)
    (h1 : projectEdit u pid req db = .ok (some db₁))
    (h2 : projectEdit u pid { req with issues_url := none } db = .ok (some db₂))
    (hprior : (db.mods.find? (fun m => m.id == pid)).map ModRow.issues_url
      = some (some v)) :
    (db₁.mods.find? (fun m => m.id == pid)).map ModRow.issues_url = some none ∧
    (db₂.mods.find? (fun m => m.id == pid)).map ModRow.issues_url = some (some v) ∧
    (db₁.mods.find? (fun m => m.id == pid)).map ModRow.issues_url
      ≠ (db₂.mods.find? (fun m => m.id == pid)).map ModRow.issues_url := by
  have hsome : (db.mods.find? (fun m => m.id == pid)).isSome := by
    cases hfind : db.mods.find? (fun m => m.id == pid) with
    | none => rw [hfind] at hprior; simp at hprior
    | some r0 => rfl
  have hA := (projectEdit_issues u pid req db db₁ h1).2 none hreq hsome
  have hB := (projectEdit_issues u pid { req with issues_url := none } db db₂ h2).1 rfl
  rw [hprior] at hB
  refine ⟨hA, hB, ?_⟩
  rw [hA, hB]
  simp

/-- Witness for C7: on `exDb7` (project 1 with a non-empty issues url) an
admin's explicit-null edit persists an empty issues url, the same edit
with the field omitted leaves it untouched, and the two persisted results
differ. -/
theorem c7_issues_url_three_valued_witness :
    (exDb7c.mods.find? (fun m => m.id == 1)).map ModRow.issues_url = some none ∧
    (exDb7.mods.find? (fun m => m.id == 1)).map ModRow.issues_url
      = some (some "https://bugs.example") ∧
    (exDb7c.mods.find? (fun m => m.id == 1)).map ModRow.issues_url
      ≠ (exDb7.mods.find? (fun m => m.id == 1)).map ModRow.issues_url :=
  c7_issues_url_three_valued ⟨77, .admin⟩ 1 req7 exDb7 exDb7c exDb7
    "https://bugs.example" rfl (by rfl) (by rfl) (by rfl)

end Routes

namespace Creation

open Routes (Db bindOk strToLower fromBase62 emptyDb)

/-- `undo_uploads` removes every recorded upload from the blob store. -/
theorem undoUploads_removes (side : CreateSide) :
    ∀ uf ∈ side.uploaded, ¬ uf.file_name ∈ (undoUploads side).blob := by
  intro uf hm hmem
  unfold undoUploads at hmem
  simp only [List.mem_filter] at hmem
  obtain ⟨hblob, hpred⟩ := hmem
  simp only [Bool.not_eq_eq_eq_not, Bool.not_true, List.any_eq_false] at hpred
  exact hpred uf hm (by simp)

/-- Filtering by a weaker predicate keeps at least as many elements. -/
theorem length_filter_mono {α : Type} (p q : α → Bool) (l : List α)
    (h : ∀ a ∈ l, p a = true → q a = true) :
    (l.filter p).length ≤ (l.filter q).length := by
  induction l with
  | nil => simp
  | cons a t ih =>
    simp only [List.filter_cons]
    by_cases hp : p a = true
    · rw [if_pos hp, if_pos (h a (by simp) hp)]
      simpa using ih (fun b hb hpb => h b (by simp [hb]) hpb)
    · rw [if_neg hp]
      split
      · exact Nat.le_succ_of_le (ih fun b hb hpb => h b (by simp [hb]) hpb)
      · exact ih fun b hb hpb => h b (by simp [hb]) hpb

/-- A successful `forM` ran its body successfully on every element. -/
theorem forM_ok {ε α : Type} {f : α → Except ε Unit} :
    ∀ {l : List α}, l.forM f = .ok () → ∀ a ∈ l, f a = .ok () := by
  intro l
  induction l with
  | nil => intro _ a ha; exact absurd ha (by simp)
  | cons b t ih =>
    intro h a ha
    simp only [List.forM] at h
    obtain ⟨u, hu, h2⟩ := bindOk h
    rcases List.mem_cons.mp ha with rfl | ha
    · cases u; exact hu
    · exact ih h2 a ha

/-- A successful files-uploaded check means every version has exactly as
many files as declared parts. -/
theorem checkAllFilesUploaded_ok {ivs : List InitialVersionData}
    {vs : List CVersionBuilder} (h : checkAllFilesUploaded ivs vs = .ok ()) :
    ∀ (i : Nat) (iv : InitialVersionData) (b : CVersionBuilder),
      ivs[i]? = some iv → vs[i]? = some b →
      iv.file_parts.length = b.files.length := by
  intro i iv b hiv hb
  have hzip : (ivs.zip vs)[i]? = some (iv, b) :=
    List.getElem?_zip_eq_some.mpr ⟨hiv, hb⟩
  have hmem := List.getElem?_mem hzip
  have := forM_ok h (iv, b) hmem
  split at this
  · exact absurd this (by simp)
  · rename_i hne
    simpa using hne

/-- A successful `create_initial_version` returns a builder with an
empty files list. -/
theorem createInitialVersion_ok {vd : InitialVersionData} {pid a : Nat}
    {db : Db} {z : CVersionBuilder × Db}
    (h : createInitialVersion vd pid a db = .ok z) : z.1.files = [] := by
  unfold createInitialVersion at h
  split at h
  · exact absurd h (by simp)
  · simp only [] at h
    obtain ⟨rc, k2, h⟩ := bindOk h
    obtain ⟨gv, k3, h⟩ := bindOk h
    obtain ⟨ls, k4, h⟩ := bindOk h
    cases h
    rfl

/-- The initial-version builder fold produces one builder per declared
version, each with an empty files list (beyond the accumulator). -/
theorem initialVersionsFold_ok {pid a : Nat} :
    ∀ (ivs : List InitialVersionData) (acc : List CVersionBuilder × Db)
      (r : List CVersionBuilder × Db),
      (ivs.foldlM (fun (p : List CVersionBuilder × Db) vd => do
        let r ← createInitialVersion vd pid a p.2
        pure (p.1 ++ [r.1], r.2)) acc) = .ok r →
      r.1.length = acc.1.length + ivs.length ∧
        ∀ b ∈ r.1, b ∈ acc.1 ∨ b.files = [] := by
  intro ivs
  induction ivs with
  | nil =>
    intro acc r h
    simp only [List.foldlM_nil, pure] at h
    cases h
    exact ⟨by simp, fun b hb => Or.inl hb⟩
  | cons vd t ih =>
    intro acc r h
    rw [List.foldlM_cons] at h
    obtain ⟨acc1, k1, h2⟩ := bindOk h
    obtain ⟨z, kz, hpure⟩ := bindOk k1
    cases hpure
    obtain ⟨hlen, hmem⟩ := ih _ r h2
    constructor
    · rw [hlen]
      simp only [List.length_append, List.length_cons, List.length_nil]
      omega
    · intro b hb
      rcases hmem b hb with hin | hfiles
      · rcases List.mem_append.mp hin with hin' | hin'
        · exact Or.inl hin'
        · right
          obtain rfl : b = z.1 := by simpa using hin'
          exact createInitialVersion_ok kz
      · exact Or.inr hfiles

/-- Every entry of the versions map names a declared file part of the
version at its index. -/
theorem vmapInnerFold_ok (i : Nat) :
    ∀ (parts : List String) (m m' : List (String × Nat)),
      (parts.foldlM (fun (vmap : List (String × Nat)) name =>
        if vmap.any (fun q => q.1 == name) then
          Except.error (CreateError.invalidInput "Duplicate multipart field name")
        else .ok (vmap ++ [(name, i)])) m) = .ok m' →
      ∀ q ∈ m', q ∈ m ∨ (q.2 = i ∧ parts.contains q.1 = true) := by
  intro parts
  induction parts with
  | nil =>
    intro m m' h q hq
    simp only [List.foldlM_nil, pure] at h
    cases h
    exact Or.inl hq
  | cons name t ih =>
    intro m m' h q hq
    rw [List.foldlM_cons] at h
    obtain ⟨m1, k1, h2⟩ := bindOk h
    split at k1
    · exact absurd k1 (by simp)
    · cases k1
      rcases ih _ m' h2 q hq with hin | ⟨hqi, hqc⟩
      · rcases List.mem_append.mp hin with hin' | hin'
        · exact Or.inl hin'
        · right
          obtain rfl : q = (name, i) := by simpa using hin'
          exact ⟨rfl, by simp⟩
      · refine Or.inr ⟨hqi, ?_⟩
        rw [List.contains_cons, hqc]
        simp

/-- The outer versions-map fold: every produced entry comes from the
accumulator or from a declared file part of one of the folded items. -/
theorem vmapOuterFold_ok :
    ∀ (l : List (Nat × InitialVersionData)) (m m' : List (String × Nat)),
      (l.foldlM (fun vmap p =>
        p.2.file_parts.foldlM (fun (vmap : List (String × Nat)) name =>
          if vmap.any (fun q => q.1 == name) then
            Except.error (CreateError.invalidInput "Duplicate multipart field name")
          else .ok (vmap ++ [(name, p.1)])) vmap) m) = .ok m' →
      ∀ q ∈ m', q ∈ m ∨
        ∃ p ∈ l, q.2 = p.1 ∧ p.2.file_parts.contains q.1 = true := by
  intro l
  induction l with
  | nil =>
    intro m m' h q hq
    simp only [List.foldlM_nil, pure] at h
    cases h
    exact Or.inl hq
  | cons p t ih =>
    intro m m' h q hq
    rw [List.foldlM_cons] at h
    obtain ⟨m1, k1, h2⟩ := bindOk h
    rcases ih _ m' h2 q hq with hin | ⟨p', hp', hqi, hqc⟩
    · rcases vmapInnerFold_ok p.1 _ m m1 k1 q hin with hin' | ⟨hqi, hqc⟩
      · exact Or.inl hin'
      · exact Or.inr ⟨p, by simp, hqi, hqc⟩
    · exact Or.inr ⟨p', by simp [hp'], hqi, hqc⟩

/-- Every versions-map entry points at a declared version index whose
file parts contain the entry's field name. -/
theorem buildVersionsMap_mem {ivs : List InitialVersionData}
    {vmap : List (String × Nat)} (h : buildVersionsMap ivs = .ok vmap) :
    ∀ q ∈ vmap, ∃ iv, ivs[q.2]? = some iv ∧ iv.file_parts.contains q.1 = true := by
  intro q hq
  unfold buildVersionsMap at h
  rcases vmapOuterFold_ok ivs.enum [] vmap h q hq with hin | ⟨p, hp, hqi, hqc⟩
  · exact absurd hin (by simp)
  · have := List.mem_enum_iff_getElem?.mp hp
    exact ⟨p.2, by rw [hqi]; exact this, hqc⟩

/-- The upload loop: the builders list keeps its length, and each
version's file count grows by exactly the number of non-icon fields
mapped to it.  -/
theorem processUploads_invariant (data : ProjectCreateData) (pid : Nat)
    (vmap : List (String × Nat)) :
    ∀ (fields : List UploadField) (icon : Option String)
      (vs : List CVersionBuilder) (side side' : CreateSide)
      (res : Option String × List CVersionBuilder),
      processUploads data pid vmap fields (icon, vs) side = (.ok res, side') →
      res.2.length = vs.length ∧
      ∀ i : Nat, res.2[i]?.map (fun b => b.files.length)
        = vs[i]?.map (fun b => b.files.length + (fields.filter (fun f =>
            !(f.name == "icon") &&
            ((vmap.find? (fun q => q.1 == f.name)).map (fun q => q.2) == some i))).length) := by
  intro fields
  induction fields with
  | nil =>
    intro icon vs side side' res h
    simp only [processUploads] at h
    obtain ⟨h1, h2⟩ := Prod.mk.injEq .. |>.mp h
    obtain rfl : (icon, vs) = res := Except.ok.inj h1
    refine ⟨rfl, ?_⟩
    intro i
    simp
  | cons f rest ih =>
    intro icon vs side side' res h
    simp only [processUploads] at h
    split at h
    · rename_i hicon
      split at h
      · exact absurd ((Prod.mk.injEq .. |>.mp h).1) (by simp)
      · split at h
        · exact absurd ((Prod.mk.injEq .. |>.mp h).1) (by simp)
        · rename_i url side1 hpiu
          obtain ⟨hlen, hcount⟩ := ih _ _ _ _ _ h
          refine ⟨hlen, ?_⟩
          intro i
          rw [hcount i]
          have hpred : (!(f.name == "icon") &&
              ((vmap.find? (fun q => q.1 == f.name)).map (fun q => q.2) == some i)) = false := by
            rw [hicon]
            simp
          rw [List.filter_cons, hpred]
          simp
    · rename_i hicon
      split at h
      · exact absurd ((Prod.mk.injEq .. |>.mp h).1) (by simp)
      · rename_i p hfind
        split at h
        · rename_i cv vd hcv hvd
          obtain ⟨hlen, hcount⟩ := ih _ _ _ _ _ h
          have hlt : p.2 < vs.length := by
            have := hcv
            rw [List.get?_eq_getElem?] at this
            exact (List.getElem?_eq_some_iff.mp this).1
          refine ⟨by rw [hlen, List.length_set], ?_⟩
          intro i
          rw [hcount i]
          by_cases hi : i = p.2
          · subst hi
            have hset : (vs.set p.2 { cv with files := cv.files ++
                [(uploadFile pid vd.version_number f side).1] })[p.2]? = some
                { cv with files := cv.files ++
                  [(uploadFile pid vd.version_number f side).1] } := by
              rw [List.getElem?_set_self hlt]
            have hvsi : vs[p.2]? = some cv := by
              rw [← List.get?_eq_getElem?]
              exact hcv
            have hpred : (!(f.name == "icon") &&
                ((vmap.find? (fun q => q.1 == f.name)).map (fun q => q.2) ==
                  some p.2)) = true := by
              rw [hfind]
              simp [hicon]
            rw [hset, hvsi, List.filter_cons, hpred]
            simp only [reduceIte, Option.map_some', List.length_append,
              List.length_cons, List.length_nil]
            congr 1
            omega
          · have hset : (vs.set p.2 { cv with files := cv.files ++
                [(uploadFile pid vd.version_number f side).1] })[i]? = vs[i]? := by
              rw [List.getElem?_set_ne (by omega)]
            have hpred : (!(f.name == "icon") &&
                ((vmap.find? (fun q => q.1 == f.name)).map (fun q => q.2) == some i)) = false := by
              rw [hfind]
              simp only [Option.map_some', Bool.and_eq_false_iff]
              right
              simp [Ne.symm hi, hi]
            rw [hset, List.filter_cons, hpred]
            simp
        · exact absurd ((Prod.mk.injEq .. |>.mp h).1) (by simp)

/-- A successful builder insert implies no existing project had the new
slug (case-insensitively): the uniqueness constraint accepted it. -/
theorem projectBuilderInsert_ok_nodup {project_id team_id : Nat}
    {data : ProjectCreateData} {icon_url : Option String}
    {sid csid ssid lid : Nat} {cats : List Nat} {dons : List (Nat × String)}
    {versions : List CVersionBuilder} {a : Nat} {now : Int} {db db' : Db}
    (h : projectBuilderInsert project_id team_id data icon_url sid csid ssid
      lid cats dons versions a now db = .ok db') :
    db.mods.any (fun m =>
      (m.slug.map strToLower) == some (strToLower data.slug)) = false := by
  unfold projectBuilderInsert at h
  split at h
  · exact absurd h (by simp)
  · rename_i hdup
    simpa using hdup

/-- A successful creation tail ran the files-uploaded check and passed
the slug-uniqueness constraint. -/
theorem finishCreation_ok {u : Teams.User} {data : ProjectCreateData}
    {pid ptid : Nat} {icon : Option String} {versions : List CVersionBuilder}
    {now : Int} {db db' : Db}
    (h : finishCreation u data pid ptid icon versions now db = .ok db') :
    checkAllFilesUploaded data.initial_versions versions = .ok () ∧
    db.mods.any (fun m =>
      (m.slug.map strToLower) == some (strToLower data.slug)) = false := by
  unfold finishCreation at h
  obtain ⟨u0, k0, h⟩ := bindOk h
  obtain ⟨cats, k1, h⟩ := bindOk h
  simp only [] at h
  obtain ⟨sid, k2, h⟩ := bindOk h
  obtain ⟨csid, k3, h⟩ := bindOk h
  obtain ⟨ssid, k4, h⟩ := bindOk h
  obtain ⟨lid, k5, h⟩ := bindOk h
  obtain ⟨dons, k6, h⟩ := bindOk h
  obtain ⟨dbI, k7, h⟩ := bindOk h
  refine ⟨by cases u0; exact k0, ?_⟩
  have := projectBuilderInsert_ok_nodup k7
  exact this

/-- A committed `project_create_inner` continuation gives every declared
initial version at least as many matching uploaded fields as it declared
file parts (the files-uploaded check forces equality with the uploads,
and each upload's field names a declared part). -/
theorem projectCreateInner2_counts {user : Teams.User}
    {data : ProjectCreateData} {fields : List UploadField} {now : Int}
    {db : Db} {side side' : CreateSide} {pid : Nat} {db' : Db}
    (h : projectCreateInner2 user data fields now db side pid = (.ok db', side')) :
    ∀ (i : Nat) (iv : InitialVersionData),
      data.initial_versions[i]? = some iv →
      iv.file_parts.length ≤ (fields.filter (fun f =>
        !(f.name == "icon") && iv.file_parts.contains f.name)).length := by
  unfold projectCreateInner2 at h
  split at h
  · exact absurd ((Prod.mk.injEq .. |>.mp h).1) (by simp)
  · rename_i vmap hvmap
    split at h
    · exact absurd ((Prod.mk.injEq .. |>.mp h).1) (by simp)
    · rename_i versions db2 hfold
      split at h
      · exact absurd ((Prod.mk.injEq .. |>.mp h).1) (by simp)
      · rename_i pt hpt
        split at h
        · exact absurd ((Prod.mk.injEq .. |>.mp h).1) (by simp)
        · rename_i icon_url versions2 sideX hup
          split at h
          · exact absurd ((Prod.mk.injEq .. |>.mp h).1) (by simp)
          · rename_i dbF hfin
            intro i iv hiv
            obtain ⟨hflen, hfmem⟩ :=
              initialVersionsFold_ok data.initial_versions ([], db)
                (versions, db2) hfold
            have hilt : i < data.initial_versions.length :=
              (List.getElem?_eq_some_iff.mp hiv).1
            have hvlen : versions.length = data.initial_versions.length := by
              simpa using hflen
            have hvlt : i < versions.length := by omega
            have hvb : versions[i]? = some versions[i] :=
              List.getElem?_eq_getElem hvlt
            have hbf : (versions[i]).files = [] := by
              rcases hfmem _ (List.getElem?_mem hvb) with h0 | h0
              · exact absurd h0 (by simp)
              · exact h0
            obtain ⟨hul, huc⟩ := processUploads_invariant data pid vmap fields
              none versions side sideX (icon_url, versions2) hup
            have hcnt := huc i
            rw [hvb] at hcnt
            simp only [Option.map_some', hbf, List.length_nil, Nat.zero_add] at hcnt
            rcases hv2 : versions2[i]? with _ | b2
            · rw [hv2] at hcnt
              exact absurd hcnt (by simp)
            · rw [hv2] at hcnt
              simp only [Option.map_some', Option.some.injEq] at hcnt
              obtain ⟨hcheck, _⟩ := finishCreation_ok hfin
              have heq := checkAllFilesUploaded_ok hcheck i iv b2 hiv hv2
              have himp : ∀ f ∈ fields, (!(f.name == "icon") &&
                  ((vmap.find? (fun q => q.1 == f.name)).map (fun q => q.2) ==
                    some i)) = true →
                  (!(f.name == "icon") && iv.file_parts.contains f.name) = true := by
                intro f hf hpf
                simp only [Bool.and_eq_true] at hpf ⊢
                obtain ⟨hnic, hfind⟩ := hpf
                refine ⟨hnic, ?_⟩
                rcases hq : vmap.find? (fun q => q.1 == f.name) with _ | q
                · rw [hq] at hfind
                  exact absurd hfind (by simp)
                · rw [hq] at hfind
                  simp only [Option.map_some', beq_iff_eq, Option.some.injEq] at hfind
                  have hqmem := List.mem_of_find?_eq_some hq
                  have hqname : q.1 = f.name := by simpa using List.find?_some hq
                  obtain ⟨iv', hiv', hcont⟩ := buildVersionsMap_mem hvmap q hqmem
                  rw [hfind, hiv] at hiv'
                  obtain rfl : iv = iv' := Option.some.inj hiv'
                  rw [← hqname]
                  exact hcont
              have hmono := length_filter_mono _ _ fields himp
              rw [heq, hcnt]
              exact hmono

/-- A committed `project_create_inner` run satisfies the same
per-version upload-count bound. -/
theorem projectCreateInner_counts {user : Teams.User}
    {data : ProjectCreateData} {fields : List UploadField} {now : Int}
    {db : Db} {side side' : CreateSide} {db' : Db}
    (h : projectCreateInner user data fields now db side = (.ok db', side')) :
    ∀ (i : Nat) (iv : InitialVersionData),
      data.initial_versions[i]? = some iv →
      iv.file_parts.length ≤ (fields.filter (fun f =>
        !(f.name == "icon") && iv.file_parts.contains f.name)).length := by
  unfold projectCreateInner at h
  split at h
  · exact absurd ((Prod.mk.injEq .. |>.mp h).1) (by simp)
  · split at h
    · rename_i spid hparse
      simp only [] at h
      cases hany : db.mods.any (fun m => m.id == spid) with
      | false =>
        rw [hany] at h
        simp only [Bool.false_eq_true, reduceIte] at h
        exact projectCreateInner2_counts h
      | true =>
        rw [hany] at h
        simp only [reduceIte] at h
        exact absurd ((Prod.mk.injEq .. |>.mp h).1) (by simp)
    · exact projectCreateInner2_counts h

/-- C2: when some declared initial version has more `file_parts` than
there are matching uploaded fields, the whole creation fails — the
transaction result carries an error, so no project row is committed and
the caller keeps its pre-state — and the compensation path
(`undo_uploads`) has deleted every blob uploaded during this attempt
before the error is surfaced. -/
theorem c2_missing_upload_fails_with_compensation
    (user : Teams.User) (data : ProjectCreateData) (fields : List UploadField)
    (now : Int) (db : Db) (blob : List String) (i : Nat)
    (iv : InitialVersionData)
    (hiv : data.initial_versions[i]? = some iv)
    (hshort : (fields.filter (fun f => !(f.name == "icon") &&
        iv.file_parts.contains f.name)).length < iv.file_parts.length) :
    ∃ e side,
      projectCreate user data fields now db blob = (.error e, undoUploads side) ∧
      ∀ uf ∈ side.uploaded, ¬ uf.file_name ∈ (undoUploads side).blob := by
  rcases hrun : projectCreateInner user data fields now db ⟨blob, []⟩ with ⟨r, side⟩
  rcases r with e | db''
  · refine ⟨e, side, ?_, undoUploads_removes side⟩
    unfold projectCreate
    rw [hrun]
  · exfalso
    have := projectCreateInner_counts hrun i iv hiv
    omega

/-- The C2 theorem at a concrete input: one declared file part, no
uploaded fields, so the creation errors and the upload log is clean. -/
theorem c2_missing_upload_fails_with_compensation_witness :
    exDataC2.initial_versions[0]? = some exIvC2 ∧
    (([] : List UploadField).filter (fun f => !(f.name == "icon") &&
        exIvC2.file_parts.contains f.name)).length <
      exIvC2.file_parts.length ∧
    ∃ e side,
      projectCreate exUserC exDataC2 [] 0 emptyDb [] =
        (.error e, undoUploads side) ∧
      ∀ uf ∈ side.uploaded, ¬ uf.file_name ∈ (undoUploads side).blob :=
  ⟨rfl, by decide,
    c2_missing_upload_fails_with_compensation exUserC exDataC2 [] 0
      emptyDb [] 0 exIvC2 rfl (by decide)⟩

/-- C4 (amended): a slug that parses in base 62 to the numeric id of an
existing project makes the creation fail with `SlugCollision` once the
payload passes validation; re-using an existing project's slug string
does not produce the collision error — it dies on the storage
uniqueness constraint as a database error (see the counterexample). -/
theorem c4_slug_id_collision
    (user : Teams.User) (data : ProjectCreateData) (fields : List UploadField)
    (now : Int) (db : Db) (blob : List String) (sid : Nat)
    (hval : validateCreateData data = .ok ())
    (hparse : fromBase62 data.slug = some sid)
    (hexists : db.mods.any (fun m => m.id == sid) = true) :
    (projectCreate user data fields now db blob).1 =
      .error CreateError.slugCollision := by
  unfold projectCreate projectCreateInner
  simp [hval, hparse, hexists]

/-- The C4 theorem at a concrete input: slug `"100"` is base-62 for
3844, the id of an existing project, and creation fails with the
collision error. -/
theorem c4_slug_id_collision_witness :
    validateCreateData exDataC4 = .ok () ∧
    fromBase62 exDataC4.slug = some 3844 ∧
    exDbC4.mods.any (fun m => m.id == 3844) = true ∧
    (projectCreate exUserC exDataC4 [] 0 exDbC4 []).1 =
      .error CreateError.slugCollision :=
  ⟨rfl, rfl, rfl,
    c4_slug_id_collision exUserC exDataC4 [] 0 exDbC4 [] 3844 rfl rfl rfl⟩

/-- C4 counterexample: creating a project whose slug string is already
taken (case-insensitively) by another project fails with the storage
constraint surfaced as a database error, not with a collision error. -/
theorem c4_counterexample :
    validateCreateData exDataC4c = .ok () ∧
    exDbC4c.mods.any (fun m =>
      (m.slug.map strToLower) == some (strToLower exDataC4c.slug)) = true ∧
    (projectCreate exUserC exDataC4c [] 0 exDbC4c []).1 =
      .error CreateError.databaseError ∧
    (projectCreate exUserC exDataC4c [] 0 exDbC4c []).1 ≠
      .error CreateError.slugCollision := by
  have h3 : (projectCreate exUserC exDataC4c [] 0 exDbC4c []).1 =
      .error CreateError.databaseError := rfl
  refine ⟨rfl, rfl, h3, ?_⟩
  rw [h3]
  intro hc
  simp at hc

end Creation

namespace Routes

/-- `dedup_by` only ever removes elements: the kept run is a sublist. -/
theorem dedupByGo_sublist {α : Type} (eq : α → α → Bool) :
    ∀ (l : List α) (prev : α), List.Sublist (dedupByGo eq prev l) l := by
  intro l
  induction l with
  | nil => intro prev; simp [dedupByGo]
  | cons b bs ih =>
    intro prev
    simp only [dedupByGo]
    by_cases h : eq b prev = true
    · rw [if_pos h]
      exact List.Sublist.cons b (ih prev)
    · rw [if_neg h]
      exact List.Sublist.cons₂ b (ih b)

/-- `Vec::dedup_by` returns a sublist of its input. -/
theorem dedupBy_sublist {α : Type} (eq : α → α → Bool) (l : List α) :
    List.Sublist (dedupBy eq l) l := by
  cases l with
  | nil => simp [dedupBy]
  | cons a as => exact List.Sublist.cons₂ a (dedupByGo_sublist eq as a)

/-- `Vec::dedup_by` keeps the head of a non-empty input. -/
theorem dedupBy_ne_nil {α : Type} (eq : α → α → Bool) (l : List α)
    (h : l ≠ []) : dedupBy eq l ≠ [] := by
  cases l with
  | nil => exact absurd rfl h
  | cons a as => simp [dedupBy]

/-- Every element kept by the `dedup_by` recursion differs (under `eq`)
from the element retained just before it. -/
theorem chain_dedupByGo {α : Type} (eq : α → α → Bool) :
    ∀ (l : List α) (prev : α),
      List.Chain (fun x y => eq y x = false) prev (dedupByGo eq prev l) := by
  intro l
  induction l with
  | nil => intro prev; exact List.Chain.nil
  | cons b bs ih =>
    intro prev
    simp only [dedupByGo]
    by_cases h : eq b prev = true
    · rw [if_pos h]
      exact ih prev
    · rw [if_neg h]
      exact List.Chain.cons (by simpa using h) (ih b)

/-- After `Vec::dedup_by` no two adjacent elements are related by `eq`. -/
theorem chain'_dedupBy {α : Type} (eq : α → α → Bool) (l : List α) :
    List.Chain' (fun x y => eq y x = false) (dedupBy eq l) := by
  cases l with
  | nil => simp [dedupBy]
  | cons a as => exact chain_dedupByGo eq as a

/-- `dedup_by` on id-equality never loses an id: each dropped element's
id survives on the retained element it was compared against. -/
theorem dedupByGo_covers :
    ∀ (bs : List MVersion) (prev : MVersion), ∀ x ∈ bs,
      (∃ y ∈ dedupByGo (fun a b => a.id == b.id) prev bs, x.id = y.id) ∨
        x.id = prev.id := by
  intro bs
  induction bs with
  | nil => intro prev x hx; exact absurd hx (by simp)
  | cons b t ih =>
    intro prev x hx
    simp only [dedupByGo]
    rcases List.mem_cons.mp hx with rfl | hx'
    · by_cases h : (x.id == prev.id) = true
      · rw [if_pos h]
        exact Or.inr (by simpa using h)
      · rw [if_neg h]
        exact Or.inl ⟨x, by simp, rfl⟩
    · by_cases h : (b.id == prev.id) = true
      · rw [if_pos h]
        exact ih prev x hx'
      · rw [if_neg h]
        rcases ih b x hx' with ⟨y, hy, hxy⟩ | hxb
        · exact Or.inl ⟨y, by simp [hy], hxy⟩
        · exact Or.inl ⟨b, by simp, hxb⟩

/-- Every id of the input list survives `dedup_by` on id-equality. -/
theorem dedupBy_covers (l : List MVersion) :
    ∀ x ∈ l, ∃ y ∈ dedupBy (fun a b => a.id == b.id) l, x.id = y.id := by
  intro x hx
  cases l with
  | nil => exact absurd hx (by simp)
  | cons a as =>
    rcases List.mem_cons.mp hx with rfl | hx'
    · exact ⟨x, by simp [dedupBy], rfl⟩
    · rcases dedupByGo_covers as a x hx' with ⟨y, hy, hxy⟩ | hxa
      · exact ⟨y, by simp [dedupBy, hy], hxy⟩
      · exact ⟨a, by simp [dedupBy], hxa⟩

/-- The response sort is a permutation. -/
theorem sortMVersions_perm (l : List MVersion) : (sortMVersions l).Perm l :=
  List.perm_insertionSort _ _

/-- Membership is unchanged by the response sort. -/
theorem sortMVersions_mem {x : MVersion} {l : List MVersion} :
    x ∈ sortMVersions l ↔ x ∈ l :=
  (sortMVersions_perm l).mem_iff

/-- The response sort orders by publish date descending. -/
theorem sortMVersions_sorted (l : List MVersion) :
    List.Pairwise dateDescM (sortMVersions l) :=
  List.sorted_insertionSort _ _

/-- The response sort keeps a non-empty list non-empty. -/
theorem sortMVersions_ne_nil {l : List MVersion} (h : l ≠ []) :
    sortMVersions l ≠ [] := by
  intro hc
  have hlen := (sortMVersions_perm l).length_eq
  rw [hc] at hlen
  exact h (List.eq_nil_of_length_eq_zero hlen.symm)

/-- The version sort is a permutation. -/
theorem sortVersions_perm (l : List RQueryVersion) : (sortVersions l).Perm l :=
  List.perm_insertionSort _ _

/-- Membership is unchanged by the version sort. -/
theorem sortVersions_mem {x : RQueryVersion} {l : List RQueryVersion} :
    x ∈ sortVersions l ↔ x ∈ l :=
  (sortVersions_perm l).mem_iff

/-- The version sort keeps a non-empty list non-empty. -/
theorem sortVersions_ne_nil {l : List RQueryVersion} (h : l ≠ []) :
    sortVersions l ≠ [] := by
  intro hc
  have hlen := (sortVersions_perm l).length_eq
  rw [hc] at hlen
  exact h (List.eq_nil_of_length_eq_zero hlen.symm)

/-- Provenance of the auto-featuring pass: every pushed entry either was
already in the accumulator or converts a version that supports one of
the folded (game-version, loader) pairs. -/
theorem autoFeatured_foldl_mem (versions : List RQueryVersion) :
    ∀ (filters : List (String × String)) (init : List MVersion),
      ∀ m ∈ filters.foldl (autoFeaturedFold versions) init,
        m ∈ init ∨ ∃ v ∈ versions, m = convertVersion v ∧
          ∃ p ∈ filters, v.game_versions.contains p.1 = true ∧
            v.loaders.contains p.2 = true := by
  intro filters
  induction filters with
  | nil =>
    intro init m hm
    simp only [List.foldl_nil] at hm
    exact Or.inl hm
  | cons p t ih =>
    intro init m hm
    rw [List.foldl_cons] at hm
    rcases ih _ m hm with hin | ⟨v, hv, hmv, q, hq, h1, h2⟩
    · unfold autoFeaturedFold at hin
      rcases hfind : versions.find? (fun v =>
          v.game_versions.contains p.1 && v.loaders.contains p.2) with _ | v
      · simp only [hfind] at hin
        exact Or.inl hin
      · simp only [hfind] at hin
        rcases List.mem_append.mp hin with hin' | hin'
        · exact Or.inl hin'
        · right
          obtain rfl : m = convertVersion v := by simpa using hin'
          have hpred := List.find?_some hfind
          simp only [Bool.and_eq_true] at hpred
          exact ⟨v, List.mem_of_find?_eq_some hfind, rfl, p, by simp,
            hpred.1, hpred.2⟩
    · exact Or.inr ⟨v, hv, hmv, q, by simp [hq], h1, h2⟩

/-- Distinct list members are separated by a pairwise-distinct
projection. -/
theorem pairwise_mem_ne {α β : Type} (f : α → β) :
    ∀ (l : List α), l.Pairwise (fun a b => f a ≠ f b) →
      ∀ x ∈ l, ∀ y ∈ l, x ≠ y → f x ≠ f y := by
  intro l
  induction l with
  | nil => intro _ x hx; exact absurd hx (by simp)
  | cons a t ih =>
    intro hp x hx y hy hxy
    obtain ⟨ha, ht⟩ := List.pairwise_cons.mp hp
    rcases List.mem_cons.mp hx with rfl | hx'
    · rcases List.mem_cons.mp hy with rfl | hy'
      · exact absurd rfl hxy
      · exact ha y hy'
    · rcases List.mem_cons.mp hy with rfl | hy'
      · exact fun hc => ha x hx' hc.symm
      · exact ih ht x hx' y hy' hxy

/-- On a date-sorted list whose elements carry equal ids exactly when
they carry equal dates, `dedup_by` on id-equality removes every
duplicated id. -/
theorem dedupByGo_nodup :
    ∀ (bs : List MVersion) (prev : MVersion),
      List.Pairwise dateDescM (prev :: bs) →
      (∀ x ∈ prev :: bs, ∀ y ∈ prev :: bs,
        (x.id = y.id ↔ x.date_published = y.date_published)) →
      ((prev :: dedupByGo (fun a b => a.id == b.id) prev bs).map
        (fun m => m.id)).Nodup := by
  intro bs
  induction bs with
  | nil =>
    intro prev _ _
    simp [dedupByGo]
  | cons b t ih =>
    intro prev hsorted hkey
    simp only [dedupByGo]
    by_cases heq : (b.id == prev.id) = true
    · rw [if_pos heq]
      refine ih prev (hsorted.sublist ?_) ?_
      · exact List.Sublist.cons₂ prev (List.Sublist.cons b (List.Sublist.refl t))
      · intro x hx y hy
        refine hkey x ?_ y ?_
        · rcases List.mem_cons.mp hx with rfl | hx'
          · simp
          · simp [hx']
        · rcases List.mem_cons.mp hy with rfl | hy'
          · simp
          · simp [hy']
    · rw [if_neg heq]
      have htail : List.Pairwise dateDescM (b :: t) := hsorted.of_cons
      have hkey' : ∀ x ∈ b :: t, ∀ y ∈ b :: t,
          (x.id = y.id ↔ x.date_published = y.date_published) := by
        intro x hx y hy
        exact hkey x (List.mem_cons_of_mem prev hx) y (List.mem_cons_of_mem prev hy)
      have hrest := ih b htail hkey'
      rw [List.map_cons, List.nodup_cons]
      refine ⟨?_, hrest⟩
      intro hmem
      obtain ⟨x, hx, hxid⟩ := List.mem_map.mp hmem
      have hx' : x ∈ b :: t := by
        rcases List.mem_cons.mp hx with rfl | hxg
        · simp
        · exact List.mem_cons_of_mem b ((dedupByGo_sublist _ t b).subset hxg)
      have hxmem : x ∈ prev :: b :: t := List.mem_cons_of_mem prev hx'
      have hdx : x.date_published = prev.date_published :=
        (hkey x hxmem prev (by simp)).mp hxid
      have hpb : dateDescM prev b := (List.pairwise_cons.mp hsorted).1 b (by simp)
      have hbx : dateDescM b x := by
        rcases List.mem_cons.mp hx' with rfl | hxt
        · exact le_refl _
        · exact (List.pairwise_cons.mp htail).1 x hxt
      have hdb : b.date_published = prev.date_published := by
        unfold dateDescM at hpb hbx
        omega
      have hbid : b.id = prev.id := (hkey b (by simp) prev (by simp)).mpr hdb
      exact heq (beq_iff_eq.mpr hbid)

/-- `dedup_by` on id-equality fully deduplicates a date-sorted list in
which id equality coincides with date equality. -/
theorem dedupSorted_nodup (l : List MVersion)
    (hs : List.Pairwise dateDescM l)
    (hk : ∀ x ∈ l, ∀ y ∈ l,
      (x.id = y.id ↔ x.date_published = y.date_published)) :
    ((dedupBy (fun a b => a.id == b.id) l).map (fun m => m.id)).Nodup := by
  cases l with
  | nil => simp [dedupBy]
  | cons a as => exact dedupByGo_nodup as a hs hk

/-- Provenance through the tier logic of `version_list`: every response
entry (before sort and dedup) converts one of the project's versions. -/
theorem versionListResp_mem {v0 : List RQueryVersion} {lt gt : List String}
    {m : MVersion}
    (hm : m ∈ (if ((List.map convertVersion (List.filter
          (fun v => true == v.featured) v0)).isEmpty &&
            !(sortVersions v0).isEmpty && (some true).getD false) = true then
        if (List.foldl (autoFeaturedFold (sortVersions v0))
            (List.map convertVersion (List.filter
              (fun v => true == v.featured) v0))
            (joinedFilters gt lt)).isEmpty = true then
          List.foldl (autoFeaturedFold (sortVersions v0))
            (List.map convertVersion (List.filter
              (fun v => true == v.featured) v0))
            (joinedFilters gt lt) ++
            List.map convertVersion (sortVersions v0)
        else
          List.foldl (autoFeaturedFold (sortVersions v0))
            (List.map convertVersion (List.filter
              (fun v => true == v.featured) v0))
            (joinedFilters gt lt)
      else List.map convertVersion (List.filter
        (fun v => true == v.featured) v0))) :
    ∃ v ∈ v0, m = convertVersion v := by
  split at hm
  · split at hm
    · rcases List.mem_append.mp hm with hf | hb
      · rcases autoFeatured_foldl_mem _ _ _ m hf with hin | ⟨v, hv, hmv, _, _, _, _⟩
        · obtain ⟨v, hv, rfl⟩ := List.mem_map.mp hin
          exact ⟨v, (List.mem_filter.mp hv).1, rfl⟩
        · exact ⟨v, sortVersions_mem.mp hv, hmv⟩
      · obtain ⟨v, hv, rfl⟩ := List.mem_map.mp hb
        exact ⟨v, sortVersions_mem.mp hv, rfl⟩
    · rcases autoFeatured_foldl_mem _ _ _ m hm with hin | ⟨v, hv, hmv, _, _, _, _⟩
      · obtain ⟨v, hv, rfl⟩ := List.mem_map.mp hin
        exact ⟨v, (List.mem_filter.mp hv).1, rfl⟩
      · exact ⟨v, sortVersions_mem.mp hv, hmv⟩
  · obtain ⟨v, hv, rfl⟩ := List.mem_map.mp hm
    exact ⟨v, (List.mem_filter.mp hv).1, rfl⟩

/-- C1 (amended): for `featured=true`, `version_list` is sorted by
publish date descending, has no two *adjacent* entries with the same id
(`Vec::dedup_by` removes only consecutive duplicates — full dedup by id
holds only when ids and publish dates are pairwise distinct, see the
counterexample), every entry converts one of the project's versions,
and the three-tier fallback holds: with an explicitly featured version
the result lists exactly the featured versions; with none, each entry
supports some requested (game-version, loader) pair unless no pair is
supported at all, in which case every version of the project appears;
and a project with versions always gets a non-empty result. -/
theorem c1_version_list_three_tier (v0 : List RQueryVersion)
    (lt gt : List String) :
    List.Sorted dateDescM (versionList v0 (some true) lt gt) ∧
    List.Chain' (fun a b => a.id ≠ b.id) (versionList v0 (some true) lt gt) ∧
    (∀ m ∈ versionList v0 (some true) lt gt, ∃ v ∈ v0, m = convertVersion v) ∧
    (v0 ≠ [] → versionList v0 (some true) lt gt ≠ []) ∧
    ((∃ v ∈ v0, v.featured = true) →
      (∀ m ∈ versionList v0 (some true) lt gt,
        ∃ v ∈ v0, v.featured = true ∧ m = convertVersion v) ∧
      (∀ v ∈ v0, v.featured = true →
        ∃ m ∈ versionList v0 (some true) lt gt, m.id = v.id)) ∧
    ((∀ v ∈ v0, v.featured = false) → v0 ≠ [] →
      ((∀ m ∈ versionList v0 (some true) lt gt,
        ∃ v ∈ v0, m = convertVersion v ∧
          ∃ p ∈ joinedFilters gt lt,
            v.game_versions.contains p.1 = true ∧
            v.loaders.contains p.2 = true) ∨
       (∀ v ∈ v0, ∃ m ∈ versionList v0 (some true) lt gt, m.id = v.id))) ∧
    (v0.Pairwise (fun a b => a.id ≠ b.id) →
     v0.Pairwise (fun a b => a.date_published ≠ b.date_published) →
     ((versionList v0 (some true) lt gt).map (fun m => m.id)).Nodup) := by
  refine ⟨?_, ?_, ?_, ?_, ?_, ?_, ?_⟩
  · -- sorted by publish date descending
    unfold versionList
    exact (sortMVersions_sorted _).sublist (dedupBy_sublist _ _)
  · -- adjacent entries have distinct ids
    unfold versionList
    refine List.Chain'.imp ?_ (chain'_dedupBy _ _)
    intro a b hab
    have hba : b.id ≠ a.id := by simpa using hab
    exact fun hc => hba hc.symm
  · -- provenance
    intro m hm
    unfold versionList at hm
    exact versionListResp_mem (sortMVersions_mem.mp ((dedupBy_sublist _ _).subset hm))
  · -- non-empty result for a project with versions
    intro h0
    unfold versionList
    dsimp only []
    apply dedupBy_ne_nil
    apply sortMVersions_ne_nil
    have hB : (sortVersions v0).isEmpty = false := by
      cases hBv : sortVersions v0 with
      | nil => exact absurd hBv (sortVersions_ne_nil h0)
      | cons x xs => simp [hBv]
    split
    · split
      · rename_i hcond hempty
        intro hc
        rcases List.append_eq_nil.mp hc with ⟨_, h2⟩
        exact sortVersions_ne_nil h0 (List.map_eq_nil_iff.mp h2)
      · rename_i hcond hnonempty
        intro hc
        apply hnonempty
        rw [hc]
        rfl
    · rename_i hcond
      intro hc
      apply hcond
      rw [hc, hB]
      rfl
  · -- tier 1: explicit featured versions, exactly
    rintro ⟨vs, hvs, hfeat⟩
    have hAmem : convertVersion vs ∈ List.map convertVersion
        (List.filter (fun v => true == v.featured) v0) :=
      List.mem_map.mpr ⟨vs, List.mem_filter.mpr ⟨hvs, by simp [hfeat]⟩, rfl⟩
    constructor
    · intro m hm
      unfold versionList at hm
      dsimp only [] at hm
      have hm1 := sortMVersions_mem.mp ((dedupBy_sublist _ _).subset hm)
      split at hm1
      · rename_i hcond
        exfalso
        simp only [Bool.and_eq_true] at hcond
        have hAnil := List.isEmpty_iff.mp hcond.1.1
        rw [hAnil] at hAmem
        exact absurd hAmem (by simp)
      · obtain ⟨v, hvF, rfl⟩ := List.mem_map.mp hm1
        obtain ⟨hv0, hpred⟩ := List.mem_filter.mp hvF
        refine ⟨v, hv0, ?_, rfl⟩
        have hb : true = v.featured := by simpa using hpred
        exact hb.symm
    · intro v hv hfeat'
      unfold versionList
      dsimp only []
      have hA : convertVersion v ∈ List.map convertVersion
          (List.filter (fun u => true == u.featured) v0) :=
        List.mem_map.mpr ⟨v, List.mem_filter.mpr ⟨hv, by simp [hfeat']⟩, rfl⟩
      split
      · rename_i hcond
        exfalso
        simp only [Bool.and_eq_true] at hcond
        have hAnil := List.isEmpty_iff.mp hcond.1.1
        rw [hAnil] at hAmem
        exact absurd hAmem (by simp)
      · obtain ⟨y, hy, hid⟩ := dedupBy_covers _ _ (sortMVersions_mem.mpr hA)
        exact ⟨y, hy, hid.symm⟩
  · -- tiers 2 and 3: auto-featuring, then all versions
    intro hall h0
    have hA : List.map convertVersion
        (List.filter (fun v => true == v.featured) v0) = [] := by
      rw [List.map_eq_nil_iff, List.filter_eq_nil_iff]
      intro a ha
      simp [hall a ha]
    have hB : (sortVersions v0).isEmpty = false := by
      cases hBv : sortVersions v0 with
      | nil => exact absurd hBv (sortVersions_ne_nil h0)
      | cons x xs => simp [hBv]
    by_cases hfold : (List.foldl (autoFeaturedFold (sortVersions v0))
        (List.map convertVersion (List.filter
          (fun v => true == v.featured) v0))
        (joinedFilters gt lt)).isEmpty = true
    · right
      intro v hv
      unfold versionList
      dsimp only []
      split
      · have hmem : convertVersion v ∈ List.foldl
            (autoFeaturedFold (sortVersions v0))
            (List.map convertVersion (List.filter
              (fun u => true == u.featured) v0))
            (joinedFilters gt lt) ++
            List.map convertVersion (sortVersions v0) :=
          List.mem_append.mpr (Or.inr
            (List.mem_map.mpr ⟨v, sortVersions_mem.mpr hv, rfl⟩))
        obtain ⟨y, hy, hid⟩ := dedupBy_covers _ _ (sortMVersions_mem.mpr hmem)
        exact ⟨y, hy, hid.symm⟩
      · rename_i hcond
        exfalso
        apply hcond
        rw [hA, hB]
        rfl
    · left
      intro m hm
      unfold versionList at hm
      dsimp only [] at hm
      have hm1 := sortMVersions_mem.mp ((dedupBy_sublist _ _).subset hm)
      split at hm1
      · rcases autoFeatured_foldl_mem _ _ _ m hm1 with hin |
            ⟨v, hv, hmv, p, hp, h1, h2⟩
        · rw [hA] at hin
          exact absurd hin (by simp)
        · exact ⟨v, sortVersions_mem.mp hv, hmv, p, hp, h1, h2⟩
      · rename_i hcond
        exfalso
        apply hcond
        rw [hA, hB]
        rfl
  · -- full dedup by id under pairwise-distinct ids and dates
    intro hids hdates
    unfold versionList
    dsimp only []
    apply dedupSorted_nodup
    · exact sortMVersions_sorted _
    · intro x hx y hy
      obtain ⟨v1, hv1, rfl⟩ := versionListResp_mem (sortMVersions_mem.mp hx)
      obtain ⟨v2, hv2, rfl⟩ := versionListResp_mem (sortMVersions_mem.mp hy)
      by_cases hvv : v1 = v2
      · subst hvv
        simp
      · refine iff_of_false ?_ ?_
        · exact pairwise_mem_ne (fun v => v.id) v0 hids v1 hv1 v2 hv2 hvv
        · exact pairwise_mem_ne (fun v => v.date_published) v0 hdates v1 hv1 v2 hv2 hvv

/-- The C1 theorem at a concrete input: a project with versions gets a
non-empty `featured=true` listing. -/
theorem c1_version_list_three_tier_witness :
    exVsC1 ≠ [] ∧
    versionList exVsC1 (some true) ["l1", "l2"] ["g1", "g2"] ≠ [] :=
  ⟨by decide,
    (c1_version_list_three_tier exVsC1 ["l1", "l2"] ["g1", "g2"]).2.2.2.1
      (by decide)⟩

/-- C1 counterexample: with two unfeatured versions published at the
same instant, the auto-featured pass pushes version 1 for (g1,l1),
version 2 for (g1,l2) and version 1 again for (g2,l1); the stable sort
keeps the tied entries in place and `dedup_by` only removes adjacent
duplicates, so the response carries version 1 twice — it is not
deduplicated by version id. -/
theorem c1_counterexample :
    (∀ v ∈ exVsC1, v.featured = false) ∧
    (versionList exVsC1 (some true) ["l1", "l2"] ["g1", "g2"]).map
      (fun m => m.id) = [1, 2, 1] ∧
    ¬ ((versionList exVsC1 (some true) ["l1", "l2"] ["g1", "g2"]).map
      (fun m => m.id)).Nodup :=
  ⟨by decide, by rfl, by decide⟩

end Routes

end Fabricate
